import Mathlib

/-!
# Verification of the pptoptimizer relationship-graph engine

A shallow embedding of the Go program `pptx.go` (package `main` of
gillesgagniard/pptoptimizer): the in-memory PowerPoint package model,
the media transcoder, the reachability-driven pruning engine and the
package writer, together with theorems settling the specification
claims about them.

Modelling conventions:
* Go slices and strings become Lean `List`s / `String`s; `map[string]Media`
  becomes an association list with distinct keys (contents-faithful; its
  internal order is a modelling artifact, and where the program's output
  depends on Go's indeterminate map iteration order the iteration order is
  passed in explicitly as a parameter).
* A Go runtime panic or `log.Fatal` is modelled by `Option`/`none`: a
  function returns `none` exactly when the corresponding Go code aborts
  the run.
* An `etree` slide-master document is modelled by the list of `r:id`
  attributes of its `p:sldLayoutId` child elements, and the presentation
  document by the `r:id` attributes of its `p:sldMasterId` elements —
  the only parts of those trees the program ever queries or mutates
  (`FindElements("//p:sldLayoutId[@r:id='…']")` plus `RemoveChild`,
  which always succeeds for an element located inside its own tree).
* The external raster codecs (`tiff.Decode` / `png.Encode`) are abstracted
  as a total byte-producing function parameter; codec failures are out of
  scope of the claims treated here.
-/

/-- ASCII letter, the character class `[a-zA-Z]` of `reSlideNumber`. -/
def isAsciiLetter (c : Char) : Bool :=
  ('a' ≤ c && c ≤ 'z') || ('A' ≤ c && c ≤ 'Z')

/-- ASCII digit, the character class `[0-9]` of `reSlideNumber`. -/
def isAsciiDigit (c : Char) : Bool :=
  '0' ≤ c && c ≤ '9'

/-- Numeric value of a digit string, as `strconv.Atoi` computes it. -/
def digitsVal (ds : List Char) : Nat :=
  ds.foldl (fun a c => a * 10 + (c.toNat - 48)) 0

/-- The regular expression `/[a-zA-Z]+([0-9]+)\.xml` applied by
`FindStringSubmatch`: scan for the leftmost position holding a slash,
then one or more ASCII letters, then one or more digits (the capture),
then the literal `.xml`.  Because the letter and digit classes are
disjoint and the tail is a literal, maximal munch is the unique viable
parse at each start position, so this scan computes exactly the regex
submatch. Returns the captured digit characters. -/
def findNumberMatch : List Char → Option (List Char)
  | [] => none
  | c :: rest =>
    if c = '/' then
      let letters := rest.takeWhile isAsciiLetter
      let r1 := rest.drop letters.length
      let digs := r1.takeWhile isAsciiDigit
      let r2 := r1.drop digs.length
      if letters ≠ [] && digs ≠ [] && [ '.', 'x', 'm', 'l'].isPrefixOf r2 then
        some digs
      else
        findNumberMatch rest
    else
      findNumberMatch rest

/-- Go `getObjectNumberFromFilename`: extract the sequence number from a part
file name via `reSlideNumber`; a failed match or an `Atoi` overflow
(value beyond `MaxInt64`) yields the error the source constructs. -/
def getObjectNumberFromFilename (fname : String) : Except String Nat :=
  match findNumberMatch fname.data with
  | none => Except.error ("invalid file name " ++ fname)
  | some digs =>
    if digitsVal digs < 2 ^ 63 then
      Except.ok (digitsVal digs)
    else
      Except.error ("invalid slide number " ++ fname)

/-- The number every call site of `getObjectNumberFromFilename` that
discards the error actually uses: the extracted number, or `0` (the Go
zero value returned alongside the error) when extraction fails. -/
def relNum (fname : String) : Nat :=
  ((getObjectNumberFromFilename fname).toOption).getD 0

/-- Index of the first occurrence of `pat` in `s` (`strings.Index`). -/
def indexOfSub (pat : List Char) : List Char → Option Nat
  | [] => if pat.isPrefixOf ([] : List Char) then some 0 else none
  | c :: rest =>
    if pat.isPrefixOf (c :: rest) then some 0
    else (indexOfSub pat rest).map (· + 1)

/-- Go `strings.Replace(s, old, new, 1)`: replace the first occurrence of
`old` in `s` by `new`; `s` unchanged when `old` does not occur. -/
def replaceFirst (s old new : String) : String :=
  match indexOfSub old.data s.data with
  | none => s
  | some k => ⟨s.data.take k ++ new.data ++ s.data.drop (k + old.data.length)⟩

/-- Go `strings.HasSuffix`. -/
def hasSuffix (s suf : String) : Bool :=
  suf.data.isSuffixOf s.data

/-- Go `strings.HasPrefix` (on the character list, so that it evaluates in
the kernel). -/
def strStartsWith (s p : String) : Bool :=
  p.data.isPrefixOf s.data

/-- Go `strings.ToLower` restricted to ASCII case folding — the two agree on
every extension string compared by the program. -/
def toLowerAscii (s : String) : String :=
  ⟨s.data.map (fun c => if 'A' ≤ c && c ≤ 'Z' then Char.ofNat (c.toNat + 32) else c)⟩

deriving instance DecidableEq for Except

/-- drop everything up to and including the last `'/'` (on a reversed list:
take while not `'/'`). -/
def lastComponentRev (cs : List Char) : List Char :=
  cs.reverse.takeWhile (· ≠ '/')

/-- Go `filepath.Base` (slash-separated paths): empty path gives `"."`,
trailing slashes are dropped, all-slash gives `"/"`, otherwise the part
after the last remaining slash. -/
def baseName (s : String) : String :=
  if s.data = [] then "."
  else
    let trimmed := (s.data.reverse.dropWhile (· = '/')).reverse
    if trimmed = [] then "/"
    else ⟨(trimmed.reverse.takeWhile (· ≠ '/')).reverse⟩

/-- Go `filepath.Ext`: the suffix of the final path element starting at its
last dot, empty when the final element has no dot. -/
def extName (s : String) : String :=
  let r := s.data.reverse.takeWhile (· ≠ '/')
  let upToDot := r.takeWhile (· ≠ '.')
  if upToDot.length = r.length then ""
  else ⟨'.' :: upToDot.reverse⟩

/-- One `<Relationship>` element (struct `Relationship`; the Go field
`Type` is spelled `Type'` here). -/
structure Relationship where
  Id : String
  Type' : String
  Target : String
  TargetMode : String
deriving DecidableEq

/-- A part's relationship set (struct `Relationships`, keeping just the
`Relationship` slice; the constant `XMLName` carries no information). -/
abbrev Relationships := List Relationship

/-- Go `ReplaceTarget`: rewrite every relationship whose target ends with
`oldbasename`, replacing the first occurrence of `oldbasename` by
`newbasename` in the target. -/
def ReplaceTarget (r : Relationships) (oldbasename newbasename : String) : Relationships :=
  r.map (fun rel =>
    if hasSuffix rel.Target oldbasename then
      { rel with Target := replaceFirst rel.Target oldbasename newbasename }
    else rel)

/-- struct `Media`: byte size plus the optional in-memory payload
(`data == nil` in Go is `none`: stream from the original archive). -/
structure Media where
  size : Nat
  data : Option (List Nat)
deriving DecidableEq

/-- One `<Override>` entry of `[Content_Types].xml`. -/
structure CTOverride where
  PartName : String
  ContentType : String
deriving DecidableEq

/-- One `<Default>` entry of `[Content_Types].xml`. -/
structure CTDefault where
  Extension : String
  ContentType : String
deriving DecidableEq

/-- struct `Types`, the content-type manifest. -/
structure Types where
  Default : List CTDefault
  Override : List CTOverride
deriving DecidableEq

/-- A slide-master document tree, modelled by the `r:id` attributes of its
`p:sldLayoutId` elements (see the module docstring). -/
abbrev MasterDoc := List String

/-- The presentation document tree, modelled by the `r:id` attributes of
its `p:sldMasterId` elements. -/
abbrev PresDoc := List String

/-- One entry of the source zip archive: name and uncompressed size. -/
structure ZipEntry where
  name : String
  size : Nat
deriving DecidableEq

/-- struct `PowerpointDoc`: the relationship graph plus the entry list of
the source archive (`sourceFileReader.File`). -/
structure PowerpointDoc where
  sourceFiles : List ZipEntry
  medias : List (String × Media)
  slideRels : List Relationships
  slideLayoutRels : List Relationships
  slideMasterRels : List Relationships
  presentationRels : Relationships
  slideMasters : List (Option MasterDoc)
  presentation : Option PresDoc
  contentTypes : Types
deriving DecidableEq

/-- Relationship type URI of a slide-layout reference. -/
def slideLayoutRelType : String :=
  "http://schemas.openxmlformats.org/officeDocument/2006/relationships/slideLayout"

/-- Relationship type URI of a slide-master reference. -/
def slideMasterRelType : String :=
  "http://schemas.openxmlformats.org/officeDocument/2006/relationships/slideMaster"

/-- Relationship type URI of an image reference. -/
def imageRelType : String :=
  "http://schemas.openxmlformats.org/officeDocument/2006/relationships/image"

/-- Association-list lookup, `m[k]` of the Go media map. -/
def lookupKey (m : List (String × Media)) (k : String) : Option Media :=
  (m.find? (fun kv => kv.1 == k)).map (fun kv => kv.2)

/-- Association-list insert-or-overwrite, `m[k] = v` of the Go media map. -/
def insertKey (m : List (String × Media)) (k : String) (v : Media) : List (String × Media) :=
  if m.any (fun kv => kv.1 == k) then
    m.map (fun kv => if kv.1 == k then (k, v) else kv)
  else
    m ++ [(k, v)]

/-- Go `delete(m, k)` of the Go media map. -/
def eraseKey (m : List (String × Media)) (k : String) : List (String × Media) :=
  m.filter (fun kv => !(kv.1 == k))

/-- Go `updateRelationships`: grow the slice to length `pos` if needed
(zero-filled with empty sets, as `make` produces) and write `r` at slot
`pos-1`.  `pos = 0` — the value the callers pass when number extraction
failed — makes the write `newrels[-1]`, a Go runtime panic: `none`. -/
def updateRelationships (rels : List Relationships) (pos : Nat) (r : Relationships) :
    Option (List Relationships) :=
  let newrels := if rels.length < pos then rels ++ List.replicate (pos - rels.length) [] else rels
  if 1 ≤ pos then some (newrels.set (pos - 1) r) else none

/-- Go `parseAllRelationships` for one archive entry: when the entry lies in
the `ppt/<reltype>s/_rels/` area, place its parsed relationship set
(`parsed`, abstracting the XML decode, whose failure is a separate fatal
condition) at the slot extracted from the file name, with the extraction
error discarded exactly as the source's `objNumber, _ :=` does. -/
def parseAllRelationships (rels : List Relationships) (reltype : String) (fname : String)
    (parsed : Relationships) : Option (List Relationships) :=
  if strStartsWith fname ("ppt/" ++ reltype ++ "s/_rels/") then
    updateRelationships rels (relNum fname) parsed
  else
    some rels

/-- Go `usedSlideLayouts[n-1] = true`, bounds-checked: Go panics (`none`)
when `n = 0` (the discarded-error value, giving index `-1`) or when
`n - 1` is not below the array length. -/
def setUsed (used : List Bool) (n : Nat) : Option (List Bool) :=
  if 1 ≤ n ∧ n - 1 < used.length then some (used.set (n - 1) true) else none

/-- The nested marking loops shared by `FindUsedLayouts` and
`FindUsedMasters`: over the concatenation of the scanned relationship
sets, mark slot `relNum rel.Target` for every relationship of type `ty`. -/
def markUsed (ty : String) : List Relationship → List Bool → Option (List Bool)
  | [], used => some used
  | rel :: rest, used =>
    if rel.Type' == ty then
      match setUsed used (relNum rel.Target) with
      | none => none
      | some u => markUsed ty rest u
    else
      markUsed ty rest used

/-- Go `FindUsedLayouts`: which layout slots some slide references. -/
def FindUsedLayouts (p : PowerpointDoc) : Option (List Bool) :=
  markUsed slideLayoutRelType p.slideRels.flatten
    (List.replicate p.slideLayoutRels.length false)

/-- Go `FindUsedMasters`: which master slots some layout references. -/
def FindUsedMasters (p : PowerpointDoc) : Option (List Bool) :=
  markUsed slideMasterRelType p.slideLayoutRels.flatten
    (List.replicate p.slideMasterRels.length false)

/-- Go `removeLayoutFromMaster`: delete every `p:sldLayoutId` element whose
`r:id` equals `id` (the `FindElements` loop; `RemoveChild` on an element
found inside its own tree always succeeds, so the `log.Fatal` branch
guarding its result is unreachable). -/
def removeLayoutFromMaster (master : MasterDoc) (id : String) : MasterDoc :=
  master.filter (fun x => !(x == id))

/-- The slide-master scan of `RemoveUnusedLayouts` for one canonical
layout path: in each master's relationship set, find the first
relationship targeting `relpath`; on a match, remove the referenced
element from that master's document tree (a nil or absent document —
`p.slideMasters[j]` out of range or `nil` — is a panic: `none`) and
delete that one relationship. Scanning continues over later masters. -/
def removeLayoutFromMasters (relpath : String) :
    List Relationships → List (Option MasterDoc) →
    Option (List Relationships × List (Option MasterDoc))
  | [], ms => some ([], ms)
  | rels :: rest, [] =>
    match rels.find? (fun r => r.Target == relpath) with
    | none => (removeLayoutFromMasters relpath rest []).map (fun p => (rels :: p.1, p.2))
    | some _ => none
  | rels :: rest, m :: ms =>
    match rels.find? (fun r => r.Target == relpath) with
    | none => (removeLayoutFromMasters relpath rest ms).map (fun p => (rels :: p.1, m :: p.2))
    | some r =>
      match m with
      | none => none
      | some md =>
        (removeLayoutFromMasters relpath rest ms).map
          (fun p => (rels.eraseP (fun x => x.Target == relpath) :: p.1,
                     some (removeLayoutFromMaster md r.Id) :: p.2))

/-- The canonical manifest part path of layout slot `n`. -/
def layoutPartName (n : Nat) : String :=
  "/ppt/slideLayouts/slideLayout" ++ toString n ++ ".xml"

/-- The relative layout path as it appears in master relationship sets. -/
def layoutRelPath (n : Nat) : String :=
  "../slideLayouts/slideLayout" ++ toString n ++ ".xml"

/-- The canonical manifest part path of master slot `n`. -/
def masterPartName (n : Nat) : String :=
  "/ppt/slideMasters/slideMaster" ++ toString n ++ ".xml"

/-- The master path as it appears in the presentation relationship set. -/
def masterRelPath (n : Nat) : String :=
  "slideMasters/slideMaster" ++ toString n ++ ".xml"

/-- The body of `RemoveUnusedLayouts` for one unused slot `i` (0-based):
drop the first matching manifest override, cascade through every master's
relationship set and document tree, and tombstone the layout's own
relationship set. -/
def removeLayoutSlot (s : PowerpointDoc) (i : Nat) : Option PowerpointDoc :=
  (removeLayoutFromMasters (layoutRelPath (i + 1)) s.slideMasterRels s.slideMasters).map
    (fun p =>
      { s with
        contentTypes := { s.contentTypes with
          Override := s.contentTypes.Override.eraseP
            (fun o => o.PartName == layoutPartName (i + 1)) }
        slideMasterRels := p.1
        slideMasters := p.2
        slideLayoutRels := s.slideLayoutRels.set i [] })

/-- The `for i, b := range usedSlideLayouts` loop of `RemoveUnusedLayouts`,
with `i0` the absolute index of the list head. -/
def removeLayoutsLoop : List Bool → Nat → PowerpointDoc → Option PowerpointDoc
  | [], _, s => some s
  | b :: rest, i, s =>
    if b then removeLayoutsLoop rest (i + 1) s
    else (removeLayoutSlot s i).bind (removeLayoutsLoop rest (i + 1))

/-- Go `RemoveUnusedLayouts`. -/
def RemoveUnusedLayouts (s : PowerpointDoc) : Option PowerpointDoc :=
  (FindUsedLayouts s).bind (fun used => removeLayoutsLoop used 0 s)

/-- Go `removeMasterFromPresentation`: delete every `p:sldMasterId` element
whose `r:id` equals `id`. -/
def removeMasterFromPresentation (presentation : PresDoc) (id : String) : PresDoc :=
  presentation.filter (fun x => !(x == id))

/-- The body of `RemoveUnusedMasters` for one unused slot `i` (0-based):
manifest override, presentation relationship set and tree, then tombstone
the master's relationship set and null its document slot (the latter is a
panic when `i` is outside `slideMasters`). -/
def removeMasterSlot (s : PowerpointDoc) (i : Nat) : Option PowerpointDoc :=
  let s1 : PowerpointDoc :=
    { s with contentTypes := { s.contentTypes with
        Override := s.contentTypes.Override.eraseP
          (fun o => o.PartName == masterPartName (i + 1)) } }
  let s2 : Option PowerpointDoc :=
    match s1.presentationRels.find? (fun r => r.Target == masterRelPath (i + 1)) with
    | none => some s1
    | some r =>
      match s1.presentation with
      | none => none
      | some pd =>
        some { s1 with
          presentation := some (removeMasterFromPresentation pd r.Id)
          presentationRels :=
            s1.presentationRels.eraseP (fun x => x.Target == masterRelPath (i + 1)) }
  s2.bind (fun t =>
    if i < t.slideMasters.length then
      some { t with
        slideMasterRels := t.slideMasterRels.set i []
        slideMasters := t.slideMasters.set i none }
    else none)

/-- The `for i, b := range usedSlideMasters` loop of `RemoveUnusedMasters`. -/
def removeMastersLoop : List Bool → Nat → PowerpointDoc → Option PowerpointDoc
  | [], _, s => some s
  | b :: rest, i, s =>
    if b then removeMastersLoop rest (i + 1) s
    else (removeMasterSlot s i).bind (removeMastersLoop rest (i + 1))

/-- Go `RemoveUnusedMasters`. -/
def RemoveUnusedMasters (s : PowerpointDoc) : Option PowerpointDoc :=
  (FindUsedMasters s).bind (fun used => removeMastersLoop used 0 s)

/-- Go `FindUsedMedias`: the media keys referenced by an image relationship
in the union of slide, layout and master relationship sets. -/
def FindUsedMedias (s : PowerpointDoc) : List String :=
  (((s.slideRels ++ s.slideLayoutRels) ++ s.slideMasterRels).flatten.filter
    (fun rel => rel.Type' == imageRelType)).map
    (fun rel => "ppt/media/" ++ baseName rel.Target)

/-- Go `RemoveUnusedMedias`: delete every media entry whose key is not used
(deleting map entries while ranging is well-defined in Go; on the
association list this is a filter). -/
def RemoveUnusedMedias (s : PowerpointDoc) : PowerpointDoc :=
  { s with medias := s.medias.filter (fun kv => (FindUsedMedias s).contains kv.1) }

/-- The pruning sequence the CLI runs for `-layouts` / `-a`. -/
def fullPrune (s : PowerpointDoc) : Option PowerpointDoc :=
  (RemoveUnusedLayouts s).bind (fun s1 =>
    (RemoveUnusedMasters s1).map RemoveUnusedMedias)

/-- The per-archive-entry body of `ConvertPictures`, with the composed
tiff-decode/png-encode abstracted as the total byte producer `png`. -/
def convertOne (png : String → List Nat) (st : PowerpointDoc) (f : ZipEntry) : PowerpointDoc :=
  if strStartsWith f.name "ppt/media/" && toLowerAscii (extName f.name) == ".tiff" then
    let newfilename := replaceFirst f.name ".tiff" ".png"
    let bytes := png f.name
    let ob := baseName f.name
    let nb := replaceFirst (baseName f.name) ".tiff" ".png"
    { st with
      medias := eraseKey (insertKey st.medias newfilename ⟨bytes.length, some bytes⟩) f.name
      slideRels := st.slideRels.map (fun r => ReplaceTarget r ob nb)
      slideLayoutRels := st.slideLayoutRels.map (fun r => ReplaceTarget r ob nb)
      slideMasterRels := st.slideMasterRels.map (fun r => ReplaceTarget r ob nb) }
  else st

/-- Go `ConvertPictures`: fold the conversion over the source archive's
entry list. -/
def ConvertPictures (png : String → List Nat) (s : PowerpointDoc) : PowerpointDoc :=
  s.sourceFiles.foldl (convertOne png) s

/-- The copy decision of `SaveFile`'s pass-through loop for one source
entry: `some []` skip, `some [name]` copy, `none` the Go panic from
reading `p.slideLayoutRels[layoutNumber-1]` out of range. -/
def copyEntry (s : PowerpointDoc) (f : ZipEntry) : Option (List String) :=
  if f.name == "[Content_Types].xml"
      || strStartsWith f.name "ppt/slides/_rels/"
      || strStartsWith f.name "ppt/slideLayouts/_rels/"
      || strStartsWith f.name "ppt/_rels/"
      || strStartsWith f.name "ppt/slideMasters/"
      || f.name == "ppt/presentation.xml" then
    some []
  else if strStartsWith f.name "ppt/media/" && !(s.medias.any (fun kv => kv.1 == f.name)) then
    some []
  else if strStartsWith f.name "ppt/slideLayouts/" then
    if 1 ≤ relNum f.name ∧ relNum f.name - 1 < s.slideLayoutRels.length then
      if (s.slideLayoutRels.getD (relNum f.name - 1) []).length < 1 then some []
      else some [f.name]
    else none
  else
    some [f.name]

/-- The pass-through copy loop of `SaveFile`, emitting the copied names. -/
def copyLoop (s : PowerpointDoc) : List ZipEntry → Option (List String)
  | [] => some []
  | f :: rest => (copyEntry s f).bind (fun l => (copyLoop s rest).map (fun r => l ++ r))

/-- The new-media loop of `SaveFile`: `for k, m := range p.medias`,
iterated in the explicitly supplied map iteration order, emitting the
entries with a present payload. -/
def mediaPhase (medias : List (String × Media)) (order : List String) : List String :=
  order.filterMap (fun k =>
    (lookupKey medias k).bind (fun m => if m.data.isSome then some k else none))

/-- Go `saveAllRelationships`: names of the emitted `_rels` entries, slot by
slot in ascending order, empty sets skipped. -/
def saveAllRelNames (rels : List Relationships) (reltype : String) : List String :=
  ((List.range rels.length).filter (fun i => !(rels.getD i []).isEmpty)).map
    (fun i => "ppt/" ++ reltype ++ "s/_rels/" ++ reltype ++ toString (i + 1) ++ ".xml.rels")

/-- The slide-master rewrite loop of `SaveFile`: names of the emitted
master bodies, nil slots skipped. -/
def saveMasterNames (ms : List (Option MasterDoc)) : List String :=
  ((List.range ms.length).filter (fun i => (ms.getD i none).isSome)).map
    (fun i => "ppt/slideMasters/slideMaster" ++ toString (i + 1) ++ ".xml")

/-- The full sequence of entry names `SaveFile` writes, in write order:
pass-through copies, new media (in the supplied map iteration order),
slide/layout/master relationship sets, the presentation relationship
set, the manifest, master bodies, the presentation body (whose `WriteTo`
on a nil tree is a panic: `none`). -/
def saveEntryNames (s : PowerpointDoc) (mediaOrder : List String) : Option (List String) :=
  (copyLoop s s.sourceFiles).bind (fun copied =>
    match s.presentation with
    | none => none
    | some _ =>
      some (copied
        ++ mediaPhase s.medias mediaOrder
        ++ saveAllRelNames s.slideRels "slide"
        ++ saveAllRelNames s.slideLayoutRels "slideLayout"
        ++ saveAllRelNames s.slideMasterRels "slideMaster"
        ++ ["ppt/_rels/presentation.xml.rels", "[Content_Types].xml"]
        ++ saveMasterNames s.slideMasters
        ++ ["ppt/presentation.xml"]))

/-! ### Concrete graph states used by the counterexample and witness theorems -/

/-- A state whose manifest holds two override entries for the same layout
part path; the single layout slot is referenced by no slide. -/
def dupOverrideState : PowerpointDoc :=
  { sourceFiles := [], medias := []
    slideRels := []
    slideLayoutRels := [[⟨"rIdx", "t", "x", ""⟩]]
    slideMasterRels := [], presentationRels := []
    slideMasters := [], presentation := some []
    contentTypes := ⟨[], [⟨"/ppt/slideLayouts/slideLayout1.xml", "ct"⟩,
                          ⟨"/ppt/slideLayouts/slideLayout1.xml", "ct"⟩]⟩ }

/-- A state where master 1's relationship set references the unused
layout 1 under id `rId7`, but the master's document tree contains no
`p:sldLayoutId` element with `r:id="rId7"`. -/
def missingElemState : PowerpointDoc :=
  { sourceFiles := [], medias := [], slideRels := []
    slideLayoutRels := [[⟨"rIdx", "t", "x", ""⟩]]
    slideMasterRels := [[⟨"rId7", slideLayoutRelType, "../slideLayouts/slideLayout1.xml", ""⟩]]
    presentationRels := []
    slideMasters := [some ["rId5"]], presentation := some []
    contentTypes := ⟨[], []⟩ }

/-- The archive holds a media file with the upper-case extension `.TIFF`,
referenced by one slide relationship. -/
def upperTiffState : PowerpointDoc :=
  { sourceFiles := [⟨"ppt/media/IMG.TIFF", 4⟩]
    medias := [("ppt/media/IMG.TIFF", ⟨4, none⟩)]
    slideRels := [[⟨"rId2", imageRelType, "../media/IMG.TIFF", ""⟩]]
    slideLayoutRels := [], slideMasterRels := [], presentationRels := []
    slideMasters := [], presentation := some [], contentTypes := ⟨[], []⟩ }

/-- The archive holds `ppt/media/a.tiff`; a slide relationship targets the
distinct media base name `xa.tiff`, of which `a.tiff` is a proper suffix. -/
def suffixClashState : PowerpointDoc :=
  { sourceFiles := [⟨"ppt/media/a.tiff", 4⟩]
    medias := [("ppt/media/a.tiff", ⟨4, none⟩)]
    slideRels := [[⟨"rId2", imageRelType, "../media/xa.tiff", ""⟩]]
    slideLayoutRels := [], slideMasterRels := [], presentationRels := []
    slideMasters := [], presentation := some [], contentTypes := ⟨[], []⟩ }

/-- Two transcoded media entries with in-memory payloads, to be written by
the new-media loop of `SaveFile`. -/
def twoMediaState : PowerpointDoc :=
  { sourceFiles := []
    medias := [("ppt/media/a.png", ⟨1, some [1]⟩), ("ppt/media/b.png", ⟨1, some [2]⟩)]
    slideRels := [], slideLayoutRels := [], slideMasterRels := [], presentationRels := []
    slideMasters := [], presentation := some [], contentTypes := ⟨[], []⟩ }

/-- An archive carrying a layout body `slideLayout2.xml` while only one
layout relationship slot was parsed. -/
def strayLayoutState : PowerpointDoc :=
  { sourceFiles := [⟨"ppt/slideLayouts/slideLayout2.xml", 4⟩]
    medias := [], slideRels := []
    slideLayoutRels := [[⟨"rIdx", "t", "x", ""⟩]]
    slideMasterRels := [], presentationRels := [], slideMasters := []
    presentation := some [], contentTypes := ⟨[], []⟩ }

/-- A small consistent state: one slide using layout 1, one unused
layout 2, one master used by layout 1. -/
def demoState : PowerpointDoc :=
  { sourceFiles := []
    medias := []
    slideRels := [[⟨"rId1", slideLayoutRelType, "../slideLayouts/slideLayout1.xml", ""⟩]]
    slideLayoutRels := [[⟨"rId1", slideMasterRelType, "../slideMasters/slideMaster1.xml", ""⟩],
                        [⟨"rIdy", "t", "y", ""⟩]]
    slideMasterRels := [[⟨"rId7", slideLayoutRelType, "../slideLayouts/slideLayout1.xml", ""⟩,
                         ⟨"rId8", slideLayoutRelType, "../slideLayouts/slideLayout2.xml", ""⟩]]
    presentationRels := [⟨"rIdp", slideMasterRelType, "slideMasters/slideMaster1.xml", ""⟩]
    slideMasters := [some ["rId7", "rId8"]]
    presentation := some ["rIdp"]
    contentTypes := ⟨[], [⟨"/ppt/slideLayouts/slideLayout1.xml", "ct"⟩,
                          ⟨"/ppt/slideLayouts/slideLayout2.xml", "ct"⟩,
                          ⟨"/ppt/slideMasters/slideMaster1.xml", "ct"⟩]⟩ }

/-- The state `demoState` reaches after `RemoveUnusedLayouts`: layout 2
tombstoned and cascaded out of master 1 and the manifest. -/
def demoResult : PowerpointDoc :=
  { demoState with
    slideLayoutRels := [[⟨"rId1", slideMasterRelType, "../slideMasters/slideMaster1.xml", ""⟩],
                        []]
    slideMasterRels := [[⟨"rId7", slideLayoutRelType, "../slideLayouts/slideLayout1.xml", ""⟩]]
    slideMasters := [some ["rId7"]]
    contentTypes := ⟨[], [⟨"/ppt/slideLayouts/slideLayout1.xml", "ct"⟩,
                          ⟨"/ppt/slideMasters/slideMaster1.xml", "ct"⟩]⟩ }

/-! ### Generic list lemmas -/

/-- Writing back the value already present leaves a list unchanged. -/
theorem set_getElem?_self {α : Type} {l : List α} {i : Nat} {a : α}
    (h : l[i]? = some a) : l.set i a = l := by
  induction l generalizing i with
  | nil => simp at h
  | cons x t ih =>
    cases i with
    | zero => simp_all
    | succ j =>
      simp only [List.getElem?_cons_succ] at h
      simp [List.set_cons_succ, ih h]

/-- After erasing by key equality from a list with pairwise-distinct keys,
no element with that key remains. -/
theorem eraseP_key_clear {α κ : Type} [DecidableEq κ] (f : α → κ) (k : κ) (l : List α)
    (hp : l.Pairwise (fun a b => f a ≠ f b)) :
    ∀ x ∈ l.eraseP (fun a => f a == k), f x ≠ k := by
  induction l with
  | nil => simp
  | cons a t ih =>
    rw [List.pairwise_cons] at hp
    by_cases ha : f a = k
    · rw [List.eraseP_cons_of_pos (by simp [ha])]
      intro x hx hxk
      exact hp.1 x hx (by rw [ha, hxk])
    · rw [List.eraseP_cons_of_neg (by simp [ha])]
      intro x hx
      rw [List.mem_cons] at hx
      rcases hx with rfl | hx
      · exact ha
      · exact ih hp.2 x hx

/-- Applying `filter` twice is the same as applying it once. -/
theorem filter_idem {α : Type} (p : α → Bool) (l : List α) :
    (l.filter p).filter p = l.filter p := by
  induction l with
  | nil => rfl
  | cons a t ih =>
    by_cases h : p a = true
    · simp [List.filter_cons, h, ih]
    · simp [List.filter_cons, h, ih]

/-! ### Marking-loop lemmas (`FindUsedLayouts` / `FindUsedMasters`) -/

/-- The slot write `setUsed` succeeds exactly on an in-range 1-based slot number. -/
theorem setUsed_eq_some {used : List Bool} {n : Nat} {u : List Bool} :
    setUsed used n = some u ↔ (1 ≤ n ∧ n - 1 < used.length) ∧ u = used.set (n - 1) true := by
  unfold setUsed
  by_cases h : 1 ≤ n ∧ n - 1 < used.length
  · simp [h, eq_comm]
  · simp [h]

/-- The slot write `setUsed` fails exactly on an out-of-range slot number. -/
theorem setUsed_eq_none {used : List Bool} {n : Nat} :
    setUsed used n = none ↔ ¬(1 ≤ n ∧ n - 1 < used.length) := by
  unfold setUsed
  by_cases h : 1 ≤ n ∧ n - 1 < used.length
  · simp [h]
  · simp [h]

/-- Reading through a `set _ true` of an in-range slot. -/
theorem set_true_getElem? {used : List Bool} {n i : Nat} (hn : n - 1 < used.length)
    (hi : i < used.length) :
    ((used.set (n - 1) true)[i]? = some true) ↔ (i = n - 1 ∨ used[i]? = some true) := by
  by_cases he : i = n - 1
  · subst he
    simp [List.getElem?_set_self hn]
  · rw [List.getElem?_set_ne (fun hc => he hc.symm)]
    simp [he]

/-- The marking loop preserves the length of the slot array. -/
theorem markUsed_length {ty : String} {l : List Relationship} {used u : List Bool}
    (h : markUsed ty l used = some u) : u.length = used.length := by
  induction l generalizing used with
  | nil =>
    simp only [markUsed] at h
    cases h
    rfl
  | cons rel rest ih =>
    simp only [markUsed] at h
    by_cases hty : (rel.Type' == ty) = true
    · rw [if_pos hty] at h
      cases hs : setUsed used (relNum rel.Target) with
      | none => rw [hs] at h; exact absurd h (by simp)
      | some u0 =>
        rw [hs] at h
        rcases setUsed_eq_some.mp hs with ⟨_, rfl⟩
        have := ih h
        simpa using this
    · rw [if_neg hty] at h
      exact ih h

/-- Characterization of the marking loop: a slot ends up `true` exactly
when it started `true` or some scanned relationship of the requested type
resolves to it. -/
theorem markUsed_getElem? {ty : String} {l : List Relationship} {used u : List Bool}
    (h : markUsed ty l used = some u) {i : Nat} (hi : i < used.length) :
    (u[i]? = some true ↔
      used[i]? = some true ∨ ∃ rel ∈ l, rel.Type' = ty ∧ relNum rel.Target = i + 1) := by
  induction l generalizing used with
  | nil =>
    simp only [markUsed] at h
    cases h
    simp
  | cons rel rest ih =>
    simp only [markUsed] at h
    by_cases hty : (rel.Type' == ty) = true
    · rw [if_pos hty] at h
      have htyeq : rel.Type' = ty := by simpa using hty
      cases hs : setUsed used (relNum rel.Target) with
      | none => rw [hs] at h; exact absurd h (by simp)
      | some u0 =>
        rw [hs] at h
        rcases setUsed_eq_some.mp hs with ⟨⟨hn1, hn2⟩, rfl⟩
        have hi0 : i < (used.set (relNum rel.Target - 1) true).length := by simpa using hi
        rw [ih h hi0, set_true_getElem? hn2 hi]
        have hiff : i = relNum rel.Target - 1 ↔ relNum rel.Target = i + 1 := by omega
        rw [hiff]
        simp only [List.mem_cons, htyeq]
        constructor
        · rintro ((hn | hA) | ⟨r, hr, hty2, hn⟩)
          · exact Or.inr ⟨rel, Or.inl rfl, htyeq, hn⟩
          · exact Or.inl hA
          · exact Or.inr ⟨r, Or.inr hr, hty2, hn⟩
        · rintro (hA | ⟨r, rfl | hr, hty2, hn⟩)
          · exact Or.inl (Or.inr hA)
          · exact Or.inl (Or.inl hn)
          · exact Or.inr ⟨r, hr, hty2, hn⟩
    · rw [if_neg hty] at h
      have htyne : ¬(rel.Type' = ty) := by simpa using hty
      rw [ih h hi]
      simp only [List.mem_cons]
      constructor
      · rintro (hA | ⟨r, hr, hty2, hn⟩)
        · exact Or.inl hA
        · exact Or.inr ⟨r, Or.inr hr, hty2, hn⟩
      · rintro (hA | ⟨r, rfl | hr, hty2, hn⟩)
        · exact Or.inl hA
        · exact absurd hty2 htyne
        · exact Or.inr ⟨r, hr, hty2, hn⟩

/-- The marking loop panics exactly when some scanned relationship of the
requested type resolves outside the 1-based slot range. -/
theorem markUsed_eq_none {ty : String} {l : List Relationship} {used : List Bool} :
    markUsed ty l used = none ↔
      ∃ rel ∈ l, rel.Type' = ty ∧
        ¬(1 ≤ relNum rel.Target ∧ relNum rel.Target ≤ used.length) := by
  induction l generalizing used with
  | nil => simp [markUsed]
  | cons rel rest ih =>
    simp only [markUsed]
    by_cases hty : (rel.Type' == ty) = true
    · rw [if_pos hty]
      have htyeq : rel.Type' = ty := by simpa using hty
      cases hs : setUsed used (relNum rel.Target) with
      | none =>
        have hcond := setUsed_eq_none.mp hs
        simp only [List.mem_cons]
        constructor
        · intro _
          exact ⟨rel, Or.inl rfl, htyeq, by omega⟩
        · intro _
          trivial
      | some u0 =>
        rcases setUsed_eq_some.mp hs with ⟨⟨hn1, hn2⟩, rfl⟩
        rw [ih]
        simp only [List.length_set, List.mem_cons]
        constructor
        · rintro ⟨r, hr, hty2, hn⟩
          exact ⟨r, Or.inr hr, hty2, hn⟩
        · rintro ⟨r, rfl | hr, hty2, hn⟩
          · exact absurd hn (by omega)
          · exact ⟨r, hr, hty2, hn⟩
    · rw [if_neg hty]
      have htyne : ¬(rel.Type' = ty) := by simpa using hty
      rw [ih]
      simp only [List.mem_cons]
      constructor
      · rintro ⟨r, hr, hty2, hn⟩
        exact ⟨r, Or.inr hr, hty2, hn⟩
      · rintro ⟨r, rfl | hr, hty2, hn⟩
        · exact absurd hty2 htyne
        · exact ⟨r, hr, hty2, hn⟩

/-! ### Lemmas about the master-scan of `RemoveUnusedLayouts` -/

/-- The master scan preserves the lengths of both arrays. -/
theorem removeLayoutFromMasters_lengths {path : String} {mrels : List Relationships}
    {ms : List (Option MasterDoc)} {p : List Relationships × List (Option MasterDoc)}
    (h : removeLayoutFromMasters path mrels ms = some p) :
    p.1.length = mrels.length ∧ p.2.length = ms.length := by
  induction mrels generalizing ms p with
  | nil =>
    simp only [removeLayoutFromMasters] at h
    cases h
    simp
  | cons rels rest ih =>
    cases ms with
    | nil =>
      simp only [removeLayoutFromMasters] at h
      cases hf : rels.find? (fun r => r.Target == path) with
      | none =>
        rw [hf] at h
        rcases Option.map_eq_some'.mp h with ⟨q, hq, rfl⟩
        have := ih hq
        simp [this.1, this.2]
      | some r =>
        rw [hf] at h
        exact absurd h (by simp)
    | cons m mrest =>
      simp only [removeLayoutFromMasters] at h
      cases hf : rels.find? (fun r => r.Target == path) with
      | none =>
        rw [hf] at h
        rcases Option.map_eq_some'.mp h with ⟨q, hq, rfl⟩
        have := ih hq
        simp [this.1, this.2]
      | some r =>
        rw [hf] at h
        cases m with
        | none => exact absurd h (by simp)
        | some md =>
          rcases Option.map_eq_some'.mp h with ⟨q, hq, rfl⟩
          have := ih hq
          simp [this.1, this.2]

/-- Each relationship set coming out of the master scan is a sublist of
the one that went in. -/
theorem removeLayoutFromMasters_sublist {path : String} {mrels : List Relationships}
    {ms : List (Option MasterDoc)} {p : List Relationships × List (Option MasterDoc)}
    (h : removeLayoutFromMasters path mrels ms = some p) :
    ∀ (j : Nat) (l' : Relationships), p.1[j]? = some l' →
      ∃ l : Relationships, mrels[j]? = some l ∧ List.Sublist l' l := by
  induction mrels generalizing ms p with
  | nil =>
    simp only [removeLayoutFromMasters] at h
    cases h
    intro j l' hj
    simp at hj
  | cons rels rest ih =>
    have step :
        ∀ (q : List Relationships × List (Option MasterDoc)) (hd : Relationships),
          List.Sublist hd rels →
          (∀ (j : Nat) (l' : Relationships), q.1[j]? = some l' →
            ∃ l : Relationships, rest[j]? = some l ∧ List.Sublist l' l) →
          ∀ (j : Nat) (l' : Relationships), (hd :: q.1)[j]? = some l' →
            ∃ l : Relationships, (rels :: rest)[j]? = some l ∧ List.Sublist l' l := by
      intro q hd hhd hq j l' hj
      cases j with
      | zero =>
        simp at hj
        exact ⟨rels, by simp, hj ▸ hhd⟩
      | succ j' =>
        simp only [List.getElem?_cons_succ] at hj ⊢
        exact hq j' l' hj
    cases ms with
    | nil =>
      simp only [removeLayoutFromMasters] at h
      cases hf : rels.find? (fun r => r.Target == path) with
      | none =>
        rw [hf] at h
        rcases Option.map_eq_some'.mp h with ⟨q, hq, rfl⟩
        exact step q rels (List.Sublist.refl rels) (ih hq)
      | some r =>
        rw [hf] at h
        exact absurd h (by simp)
    | cons m mrest =>
      simp only [removeLayoutFromMasters] at h
      cases hf : rels.find? (fun r => r.Target == path) with
      | none =>
        rw [hf] at h
        rcases Option.map_eq_some'.mp h with ⟨q, hq, rfl⟩
        exact step q rels (List.Sublist.refl rels) (ih hq)
      | some r =>
        rw [hf] at h
        cases m with
        | none => exact absurd h (by simp)
        | some md =>
          rcases Option.map_eq_some'.mp h with ⟨q, hq, rfl⟩
          exact step q _ (List.eraseP_sublist rels) (ih hq)

/-- When no master references the layout, the scan changes nothing. -/
theorem removeLayoutFromMasters_id {path : String} {mrels : List Relationships}
    (ms : List (Option MasterDoc))
    (h : ∀ rels ∈ mrels, rels.find? (fun r => r.Target == path) = none) :
    removeLayoutFromMasters path mrels ms = some (mrels, ms) := by
  induction mrels generalizing ms with
  | nil => simp [removeLayoutFromMasters]
  | cons rels rest ih =>
    have hf := h rels (by simp)
    have hrest : ∀ rels ∈ rest, rels.find? (fun r => r.Target == path) = none :=
      fun l hl => h l (by simp [hl])
    cases ms with
    | nil =>
      simp only [removeLayoutFromMasters]
      rw [hf, ih [] hrest]
      rfl
    | cons m mrest =>
      simp only [removeLayoutFromMasters]
      rw [hf, ih mrest hrest]
      rfl

/-- After a successful scan over masters whose relationship sets carry
pairwise-distinct targets, no master relationship targets the layout. -/
theorem removeLayoutFromMasters_clear {path : String} {mrels : List Relationships}
    {ms : List (Option MasterDoc)} {p : List Relationships × List (Option MasterDoc)}
    (hd : ∀ rels ∈ mrels, rels.Pairwise (fun a b => a.Target ≠ b.Target))
    (h : removeLayoutFromMasters path mrels ms = some p) :
    ∀ l' ∈ p.1, l'.find? (fun r => r.Target == path) = none := by
  induction mrels generalizing ms p with
  | nil =>
    simp only [removeLayoutFromMasters] at h
    cases h
    simp
  | cons rels rest ih =>
    have hdrest : ∀ rels ∈ rest, rels.Pairwise (fun a b => a.Target ≠ b.Target) :=
      fun l hl => hd l (by simp [hl])
    cases ms with
    | nil =>
      simp only [removeLayoutFromMasters] at h
      cases hf : rels.find? (fun r => r.Target == path) with
      | none =>
        rw [hf] at h
        rcases Option.map_eq_some'.mp h with ⟨q, hq, rfl⟩
        intro l' hl'
        rw [List.mem_cons] at hl'
        rcases hl' with rfl | hl'
        · exact hf
        · exact ih hdrest hq l' hl'
      | some r =>
        rw [hf] at h
        exact absurd h (by simp)
    | cons m mrest =>
      simp only [removeLayoutFromMasters] at h
      cases hf : rels.find? (fun r => r.Target == path) with
      | none =>
        rw [hf] at h
        rcases Option.map_eq_some'.mp h with ⟨q, hq, rfl⟩
        intro l' hl'
        rw [List.mem_cons] at hl'
        rcases hl' with rfl | hl'
        · exact hf
        · exact ih hdrest hq l' hl'
      | some r =>
        rw [hf] at h
        cases m with
        | none => exact absurd h (by simp)
        | some md =>
          rcases Option.map_eq_some'.mp h with ⟨q, hq, rfl⟩
          intro l' hl'
          rw [List.mem_cons] at hl'
          rcases hl' with rfl | hl'
          · rw [List.find?_eq_none]
            intro x hx
            have := eraseP_key_clear (fun r => r.Target) path rels (hd rels (by simp)) x hx
            simpa using this
          · exact ih hdrest hq l' hl'

/-! ### Lemmas about `removeLayoutSlot` and the `RemoveUnusedLayouts` loop -/

/-- Exact shape of an accepted `removeLayoutSlot` step. -/
theorem removeLayoutSlot_spec {s : PowerpointDoc} {i : Nat} {t : PowerpointDoc}
    (h : removeLayoutSlot s i = some t) :
    ∃ p : List Relationships × List (Option MasterDoc),
      removeLayoutFromMasters (layoutRelPath (i + 1)) s.slideMasterRels s.slideMasters = some p ∧
      t.sourceFiles = s.sourceFiles ∧ t.medias = s.medias ∧ t.slideRels = s.slideRels ∧
      t.slideLayoutRels = s.slideLayoutRels.set i [] ∧
      t.slideMasterRels = p.1 ∧ t.slideMasters = p.2 ∧
      t.presentationRels = s.presentationRels ∧ t.presentation = s.presentation ∧
      t.contentTypes = ⟨s.contentTypes.Default,
        s.contentTypes.Override.eraseP (fun o => o.PartName == layoutPartName (i + 1))⟩ := by
  unfold removeLayoutSlot at h
  rcases Option.map_eq_some'.mp h with ⟨p, hp, rfl⟩
  exact ⟨p, hp, rfl, rfl, rfl, rfl, rfl, rfl, rfl, rfl, rfl⟩

/-- An identity `removeLayoutSlot` step: nothing to erase anywhere and the
slot already tombstoned. -/
theorem removeLayoutSlot_id {s : PowerpointDoc} {i : Nat}
    (h1 : ∀ o ∈ s.contentTypes.Override, o.PartName ≠ layoutPartName (i + 1))
    (h2 : ∀ rels ∈ s.slideMasterRels,
      rels.find? (fun r => r.Target == layoutRelPath (i + 1)) = none)
    (h3 : s.slideLayoutRels[i]? = some []) :
    removeLayoutSlot s i = some s := by
  unfold removeLayoutSlot
  rw [removeLayoutFromMasters_id s.slideMasters h2]
  have hov : s.contentTypes.Override.eraseP
      (fun o => o.PartName == layoutPartName (i + 1)) = s.contentTypes.Override :=
    List.eraseP_of_forall_not (fun o ho => by simpa using h1 o ho)
  have hset : s.slideLayoutRels.set i [] = s.slideLayoutRels := set_getElem?_self h3
  cases s with
  | mk src med sr slr smr pr sm pres ct =>
    cases ct with
    | mk d ov =>
      simp only at hov hset
      simp [hov, hset]

/-- Frame of the layout-removal loop: fields other than the layout slots,
master arrays and manifest overrides are untouched; overrides only shrink
and master relationship sets only lose elements. -/
theorem removeLayoutsLoop_frame {used : List Bool} {i0 : Nat} {s t : PowerpointDoc}
    (h : removeLayoutsLoop used i0 s = some t) :
    t.sourceFiles = s.sourceFiles ∧ t.medias = s.medias ∧ t.slideRels = s.slideRels ∧
    t.presentationRels = s.presentationRels ∧ t.presentation = s.presentation ∧
    t.contentTypes.Default = s.contentTypes.Default ∧
    List.Sublist t.contentTypes.Override s.contentTypes.Override ∧
    t.slideLayoutRels.length = s.slideLayoutRels.length ∧
    t.slideMasterRels.length = s.slideMasterRels.length ∧
    t.slideMasters.length = s.slideMasters.length ∧
    (∀ (j : Nat) (l' : Relationships), t.slideMasterRels[j]? = some l' →
      ∃ l : Relationships, s.slideMasterRels[j]? = some l ∧ List.Sublist l' l) := by
  induction used generalizing i0 s with
  | nil =>
    simp only [removeLayoutsLoop] at h
    cases h
    refine ⟨rfl, rfl, rfl, rfl, rfl, rfl, List.Sublist.refl _, rfl, rfl, rfl, ?_⟩
    intro j l' hj
    exact ⟨l', hj, List.Sublist.refl _⟩
  | cons b rest ih =>
    simp only [removeLayoutsLoop] at h
    cases b with
    | true => exact ih h
    | false =>
      simp only [Bool.false_eq_true, if_false] at h
      rcases Option.bind_eq_some.mp h with ⟨s', hs', hloop⟩
      rcases removeLayoutSlot_spec hs' with
        ⟨p, hp, hsrc, hmed, hsl, hlay, hmr, hms, hpr, hpres, hct⟩
      have hf := ih hloop
      have hlen := removeLayoutFromMasters_lengths hp
      refine ⟨?_, ?_, ?_, ?_, ?_, ?_, ?_, ?_, ?_, ?_, ?_⟩
      · rw [hf.1, hsrc]
      · rw [hf.2.1, hmed]
      · rw [hf.2.2.1, hsl]
      · rw [hf.2.2.2.1, hpr]
      · rw [hf.2.2.2.2.1, hpres]
      · rw [hf.2.2.2.2.2.1, hct]
      · refine List.Sublist.trans hf.2.2.2.2.2.2.1 ?_
        rw [hct]
        exact List.eraseP_sublist _
      · rw [hf.2.2.2.2.2.2.2.1, hlay, List.length_set]
      · rw [hf.2.2.2.2.2.2.2.2.1, hmr, hlen.1]
      · rw [hf.2.2.2.2.2.2.2.2.2.1, hms, hlen.2]
      · intro j l' hj
        rcases hf.2.2.2.2.2.2.2.2.2.2 j l' hj with ⟨l1, hl1, hsub1⟩
        rw [hmr] at hl1
        rcases removeLayoutFromMasters_sublist hp j l1 hl1 with ⟨l2, hl2, hsub2⟩
        exact ⟨l2, hl2, List.Sublist.trans hsub1 hsub2⟩

/-- Layout slots after the removal loop: unused slots are tombstoned,
used slots and slots outside the processed window are untouched. -/
theorem removeLayoutsLoop_slots {used : List Bool} {i0 : Nat} {s t : PowerpointDoc}
    (h : removeLayoutsLoop used i0 s = some t)
    (hlen : i0 + used.length ≤ s.slideLayoutRels.length) :
    (∀ j : Nat, j < i0 → t.slideLayoutRels[j]? = s.slideLayoutRels[j]?) ∧
    (∀ (k : Nat) (b : Bool), used[k]? = some b →
      t.slideLayoutRels[i0 + k]? = if b then s.slideLayoutRels[i0 + k]? else some []) := by
  induction used generalizing i0 s with
  | nil =>
    simp only [removeLayoutsLoop] at h
    cases h
    exact ⟨fun j _ => rfl, fun k b hk => by simp at hk⟩
  | cons b rest ih =>
    simp only [removeLayoutsLoop] at h
    cases b with
    | true =>
      have hlen' : (i0 + 1) + rest.length ≤ s.slideLayoutRels.length := by
        simp at hlen
        omega
      have hih := ih h hlen'
      refine ⟨fun j hj => hih.1 j (by omega), ?_⟩
      intro k b' hk
      cases k with
      | zero =>
        rw [List.getElem?_cons_zero] at hk
        cases hk
        simpa using hih.1 i0 (by omega)
      | succ k' =>
        simp only [List.getElem?_cons_succ] at hk
        have := hih.2 k' b' hk
        have harith : i0 + (k' + 1) = (i0 + 1) + k' := by omega
        rw [harith]
        exact this
    | false =>
      simp only [Bool.false_eq_true, if_false] at h
      rcases Option.bind_eq_some.mp h with ⟨s', hs', hloop⟩
      rcases removeLayoutSlot_spec hs' with
        ⟨p, hp, hsrc, hmed, hsl, hlay, hmr, hms, hpr, hpres, hct⟩
      have hlens' : s'.slideLayoutRels.length = s.slideLayoutRels.length := by
        rw [hlay, List.length_set]
      have hlen' : (i0 + 1) + rest.length ≤ s'.slideLayoutRels.length := by
        rw [hlens']
        simp at hlen
        omega
      have hih := ih hloop hlen'
      have hi0 : i0 < s.slideLayoutRels.length := by
        simp at hlen
        omega
      refine ⟨?_, ?_⟩
      · intro j hj
        rw [hih.1 j (by omega), hlay, List.getElem?_set_ne (by omega)]
      · intro k b' hk
        cases k with
        | zero =>
          rw [List.getElem?_cons_zero] at hk
          cases hk
          have := hih.1 i0 (by omega)
          rw [Nat.add_zero, this, hlay, List.getElem?_set_self hi0]
          simp
        | succ k' =>
          simp only [List.getElem?_cons_succ] at hk
          have := hih.2 k' b' hk
          have harith : i0 + (k' + 1) = (i0 + 1) + k' := by omega
          rw [harith, this, hlay, List.getElem?_set_ne (by omega)]

/-- After the removal loop over a manifest with pairwise-distinct override
part names, no override for an unused layout slot survives. -/
theorem removeLayoutsLoop_override_clear {used : List Bool} {i0 : Nat} {s t : PowerpointDoc}
    (hd : s.contentTypes.Override.Pairwise (fun a b => a.PartName ≠ b.PartName))
    (h : removeLayoutsLoop used i0 s = some t) :
    ∀ k : Nat, used[k]? = some false →
      ∀ o ∈ t.contentTypes.Override, o.PartName ≠ layoutPartName (i0 + k + 1) := by
  induction used generalizing i0 s with
  | nil =>
    intro k hk
    simp at hk
  | cons b rest ih =>
    simp only [removeLayoutsLoop] at h
    cases b with
    | true =>
      intro k hk
      cases k with
      | zero => simp at hk
      | succ k' =>
        simp only [List.getElem?_cons_succ] at hk
        have := ih hd h k' hk
        intro o ho
        have harith : i0 + 1 + k' + 1 = i0 + (k' + 1) + 1 := by omega
        rw [harith] at this
        exact this o ho
    | false =>
      simp only [Bool.false_eq_true, if_false] at h
      rcases Option.bind_eq_some.mp h with ⟨s', hs', hloop⟩
      rcases removeLayoutSlot_spec hs' with
        ⟨p, hp, hsrc, hmed, hsl, hlay, hmr, hms, hpr, hpres, hct⟩
      have hd' : s'.contentTypes.Override.Pairwise (fun a b => a.PartName ≠ b.PartName) := by
        rw [hct]
        exact List.Pairwise.sublist (List.eraseP_sublist _) hd
      intro k hk
      cases k with
      | zero =>
        intro o ho
        have hsub := (removeLayoutsLoop_frame hloop).2.2.2.2.2.2.1
        have ho' : o ∈ s'.contentTypes.Override := hsub.subset ho
        rw [hct] at ho'
        have := eraseP_key_clear (fun o => o.PartName) (layoutPartName (i0 + 1))
          s.contentTypes.Override hd o ho'
        simpa using this
      | succ k' =>
        simp only [List.getElem?_cons_succ] at hk
        have := ih hd' hloop k' hk
        intro o ho
        have harith : i0 + 1 + k' + 1 = i0 + (k' + 1) + 1 := by omega
        rw [harith] at this
        exact this o ho

/-- After the removal loop over masters whose relationship sets carry
pairwise-distinct targets, no master relationship targets an unused
layout slot. -/
theorem removeLayoutsLoop_master_clear {used : List Bool} {i0 : Nat} {s t : PowerpointDoc}
    (hd : ∀ rels ∈ s.slideMasterRels, rels.Pairwise (fun a b => a.Target ≠ b.Target))
    (h : removeLayoutsLoop used i0 s = some t) :
    ∀ k : Nat, used[k]? = some false →
      ∀ l' ∈ t.slideMasterRels,
        l'.find? (fun r => r.Target == layoutRelPath (i0 + k + 1)) = none := by
  induction used generalizing i0 s with
  | nil =>
    intro k hk
    simp at hk
  | cons b rest ih =>
    simp only [removeLayoutsLoop] at h
    cases b with
    | true =>
      intro k hk
      cases k with
      | zero => simp at hk
      | succ k' =>
        simp only [List.getElem?_cons_succ] at hk
        have := ih hd h k' hk
        intro l' hl'
        have harith : i0 + 1 + k' + 1 = i0 + (k' + 1) + 1 := by omega
        rw [harith] at this
        exact this l' hl'
    | false =>
      simp only [Bool.false_eq_true, if_false] at h
      rcases Option.bind_eq_some.mp h with ⟨s', hs', hloop⟩
      rcases removeLayoutSlot_spec hs' with
        ⟨p, hp, hsrc, hmed, hsl, hlay, hmr, hms, hpr, hpres, hct⟩
      have hd' : ∀ rels ∈ s'.slideMasterRels,
          rels.Pairwise (fun a b => a.Target ≠ b.Target) := by
        intro l' hl'
        rw [hmr] at hl'
        rcases List.getElem?_of_mem hl' with ⟨j, hj⟩
        rcases removeLayoutFromMasters_sublist hp j l' hj with ⟨l, hl, hsub⟩
        exact List.Pairwise.sublist hsub (hd l (List.getElem?_mem hl))
      intro k hk
      cases k with
      | zero =>
        intro l' hl'
        have hclear : ∀ l1 ∈ s'.slideMasterRels,
            l1.find? (fun r => r.Target == layoutRelPath (i0 + 1)) = none := by
          intro l1 hl1
          rw [hmr] at hl1
          exact removeLayoutFromMasters_clear hd hp l1 hl1
        rcases List.getElem?_of_mem hl' with ⟨j, hj⟩
        rcases (removeLayoutsLoop_frame hloop).2.2.2.2.2.2.2.2.2.2 j l' hj with ⟨l1, hl1, hsub⟩
        have := hclear l1 (List.getElem?_mem hl1)
        rw [List.find?_eq_none] at this ⊢
        intro x hx
        exact this x (hsub.subset hx)
      | succ k' =>
        simp only [List.getElem?_cons_succ] at hk
        have := ih hd' hloop k' hk
        intro l' hl'
        have harith : i0 + 1 + k' + 1 = i0 + (k' + 1) + 1 := by omega
        rw [harith] at this
        exact this l' hl'

/-- The removal loop is the identity when every unused slot is already
fully cleaned. -/
theorem removeLayoutsLoop_id {used : List Bool} {i0 : Nat} {s : PowerpointDoc}
    (h : ∀ k : Nat, used[k]? = some false →
      (∀ o ∈ s.contentTypes.Override, o.PartName ≠ layoutPartName (i0 + k + 1)) ∧
      (∀ rels ∈ s.slideMasterRels,
        rels.find? (fun r => r.Target == layoutRelPath (i0 + k + 1)) = none) ∧
      s.slideLayoutRels[i0 + k]? = some []) :
    removeLayoutsLoop used i0 s = some s := by
  induction used generalizing i0 with
  | nil => rfl
  | cons b rest ih =>
    simp only [removeLayoutsLoop]
    have hrest : ∀ k : Nat, rest[k]? = some false →
        (∀ o ∈ s.contentTypes.Override, o.PartName ≠ layoutPartName (i0 + 1 + k + 1)) ∧
        (∀ rels ∈ s.slideMasterRels,
          rels.find? (fun r => r.Target == layoutRelPath (i0 + 1 + k + 1)) = none) ∧
        s.slideLayoutRels[i0 + 1 + k]? = some [] := by
      intro k hk
      have := h (k + 1) (by simpa using hk)
      have h1 : i0 + (k + 1) + 1 = i0 + 1 + k + 1 := by omega
      have h2 : i0 + (k + 1) = i0 + 1 + k := by omega
      rw [h1, h2] at this
      exact this
    cases b with
    | true => exact ih hrest
    | false =>
      have h0 := h 0 (by simp)
      rw [Nat.add_zero] at h0
      rw [removeLayoutSlot_id h0.1 h0.2.1 h0.2.2]
      simpa using ih hrest

/-! ### Lemmas about `removeMasterSlot` and the `RemoveUnusedMasters` loop -/

/-- Exact shape of an accepted `removeMasterSlot` step. -/
theorem removeMasterSlot_spec {s : PowerpointDoc} {i : Nat} {t : PowerpointDoc}
    (h : removeMasterSlot s i = some t) :
    t.sourceFiles = s.sourceFiles ∧ t.medias = s.medias ∧ t.slideRels = s.slideRels ∧
    t.slideLayoutRels = s.slideLayoutRels ∧
    t.contentTypes = ⟨s.contentTypes.Default,
      s.contentTypes.Override.eraseP (fun o => o.PartName == masterPartName (i + 1))⟩ ∧
    List.Sublist t.presentationRels s.presentationRels ∧
    t.slideMasterRels = s.slideMasterRels.set i [] ∧
    t.slideMasters = s.slideMasters.set i none ∧
    i < s.slideMasters.length ∧
    (s.presentationRels.find? (fun r => r.Target == masterRelPath (i + 1)) = none →
      t.presentationRels = s.presentationRels ∧ t.presentation = s.presentation) := by
  simp only [removeMasterSlot] at h
  cases hf : s.presentationRels.find? (fun r => r.Target == masterRelPath (i + 1)) with
  | none =>
    rw [hf] at h
    simp only [Option.some_bind] at h
    by_cases hlt : i < s.slideMasters.length
    · rw [if_pos hlt] at h
      cases h
      exact ⟨rfl, rfl, rfl, rfl, rfl, List.Sublist.refl _, rfl, rfl, hlt,
        fun _ => ⟨rfl, rfl⟩⟩
    · rw [if_neg hlt] at h
      exact absurd h (by simp)
  | some r =>
    rw [hf] at h
    cases hp : s.presentation with
    | none =>
      rw [hp] at h
      exact absurd h (by simp)
    | some pd =>
      rw [hp] at h
      simp only [Option.some_bind] at h
      by_cases hlt : i < s.slideMasters.length
      · rw [if_pos hlt] at h
        cases h
        refine ⟨rfl, rfl, rfl, rfl, rfl, List.eraseP_sublist _, rfl, rfl, hlt, ?_⟩
        intro hnone
        exact absurd hnone (by simp)
      · rw [if_neg hlt] at h
        exact absurd h (by simp)

/-- An identity `removeMasterSlot` step. -/
theorem removeMasterSlot_id {s : PowerpointDoc} {i : Nat}
    (h1 : ∀ o ∈ s.contentTypes.Override, o.PartName ≠ masterPartName (i + 1))
    (h2 : s.presentationRels.find? (fun r => r.Target == masterRelPath (i + 1)) = none)
    (h3 : s.slideMasterRels[i]? = some [])
    (h4 : s.slideMasters[i]? = some none) :
    removeMasterSlot s i = some s := by
  have hov : s.contentTypes.Override.eraseP
      (fun o => o.PartName == masterPartName (i + 1)) = s.contentTypes.Override :=
    List.eraseP_of_forall_not (fun o ho => by simpa using h1 o ho)
  have hset1 : s.slideMasterRels.set i [] = s.slideMasterRels := set_getElem?_self h3
  have hset2 : s.slideMasters.set i none = s.slideMasters := set_getElem?_self h4
  have hlt : i < s.slideMasters.length := by
    rcases List.getElem?_eq_some_iff.mp h4 with ⟨hl, _⟩
    exact hl
  simp only [removeMasterSlot]
  rw [h2]
  cases s with
  | mk src med sr slr smr pr sm pres ct =>
    cases ct with
    | mk d ov =>
      simp only at hov hset1 hset2 hlt
      simp [hov, hset1, hset2, hlt]

/-- Frame of the master-removal loop. -/
theorem removeMastersLoop_frame {used : List Bool} {i0 : Nat} {s t : PowerpointDoc}
    (h : removeMastersLoop used i0 s = some t) :
    t.sourceFiles = s.sourceFiles ∧ t.medias = s.medias ∧ t.slideRels = s.slideRels ∧
    t.slideLayoutRels = s.slideLayoutRels ∧
    t.contentTypes.Default = s.contentTypes.Default ∧
    List.Sublist t.contentTypes.Override s.contentTypes.Override ∧
    List.Sublist t.presentationRels s.presentationRels ∧
    t.slideMasterRels.length = s.slideMasterRels.length ∧
    t.slideMasters.length = s.slideMasters.length ∧
    (∀ (j : Nat) (l' : Relationships), t.slideMasterRels[j]? = some l' →
      l' = [] ∨ s.slideMasterRels[j]? = some l') := by
  induction used generalizing i0 s with
  | nil =>
    simp only [removeMastersLoop] at h
    cases h
    exact ⟨rfl, rfl, rfl, rfl, rfl, List.Sublist.refl _, List.Sublist.refl _, rfl, rfl,
      fun j l' hj => Or.inr hj⟩
  | cons b rest ih =>
    simp only [removeMastersLoop] at h
    cases b with
    | true => exact ih h
    | false =>
      simp only [Bool.false_eq_true, if_false] at h
      rcases Option.bind_eq_some.mp h with ⟨s', hs', hloop⟩
      rcases removeMasterSlot_spec hs' with
        ⟨hsrc, hmed, hsl, hlay, hct, hpr, hmr, hms, hlt, _⟩
      have hf := ih hloop
      refine ⟨?_, ?_, ?_, ?_, ?_, ?_, ?_, ?_, ?_, ?_⟩
      · rw [hf.1, hsrc]
      · rw [hf.2.1, hmed]
      · rw [hf.2.2.1, hsl]
      · rw [hf.2.2.2.1, hlay]
      · rw [hf.2.2.2.2.1, hct]
      · refine List.Sublist.trans hf.2.2.2.2.2.1 ?_
        rw [hct]
        exact List.eraseP_sublist _
      · exact List.Sublist.trans hf.2.2.2.2.2.2.1 hpr
      · rw [hf.2.2.2.2.2.2.2.1, hmr, List.length_set]
      · rw [hf.2.2.2.2.2.2.2.2.1, hms, List.length_set]
      · intro j l' hj
        rcases hf.2.2.2.2.2.2.2.2.2 j l' hj with he | hj'
        · exact Or.inl he
        · rw [hmr] at hj'
          by_cases hji : j = i0
          · subst hji
            by_cases hlt2 : j < s.slideMasterRels.length
            · rw [List.getElem?_set_self hlt2] at hj'
              cases hj'
              exact Or.inl rfl
            · rw [List.set_eq_of_length_le (by omega)] at hj'
              exact Or.inr hj'
          · rw [List.getElem?_set_ne (fun hc => hji hc.symm)] at hj'
            exact Or.inr hj'

/-- Master slots after the removal loop: unused slots are tombstoned and
nulled, used slots and slots outside the window untouched. -/
theorem removeMastersLoop_slots {used : List Bool} {i0 : Nat} {s t : PowerpointDoc}
    (h : removeMastersLoop used i0 s = some t) :
    (∀ j : Nat, j < i0 →
      t.slideMasterRels[j]? = s.slideMasterRels[j]? ∧ t.slideMasters[j]? = s.slideMasters[j]?) ∧
    (∀ (k : Nat) (b : Bool), used[k]? = some b →
      (t.slideMasterRels[i0 + k]? =
        if b then s.slideMasterRels[i0 + k]? else s.slideMasterRels[i0 + k]?.map (fun _ => []))
      ∧ (t.slideMasters[i0 + k]? = if b then s.slideMasters[i0 + k]? else some none)) := by
  induction used generalizing i0 s with
  | nil =>
    simp only [removeMastersLoop] at h
    cases h
    exact ⟨fun j _ => ⟨rfl, rfl⟩, fun k b hk => by simp at hk⟩
  | cons b rest ih =>
    simp only [removeMastersLoop] at h
    cases b with
    | true =>
      have hih := ih h
      refine ⟨fun j hj => hih.1 j (by omega), ?_⟩
      intro k b' hk
      cases k with
      | zero =>
        rw [List.getElem?_cons_zero] at hk
        cases hk
        simpa using hih.1 i0 (by omega)
      | succ k' =>
        simp only [List.getElem?_cons_succ] at hk
        have := hih.2 k' b' hk
        have harith : i0 + (k' + 1) = (i0 + 1) + k' := by omega
        rw [harith]
        exact this
    | false =>
      simp only [Bool.false_eq_true, if_false] at h
      rcases Option.bind_eq_some.mp h with ⟨s', hs', hloop⟩
      rcases removeMasterSlot_spec hs' with
        ⟨hsrc, hmed, hsl, hlay, hct, hpr, hmr, hms, hlt, _⟩
      have hih := ih hloop
      have hrlen : i0 < s.slideMasters.length := hlt
      refine ⟨?_, ?_⟩
      · intro j hj
        have := hih.1 j (by omega)
        constructor
        · rw [this.1, hmr, List.getElem?_set_ne (by omega)]
        · rw [this.2, hms, List.getElem?_set_ne (by omega)]
      · intro k b' hk
        cases k with
        | zero =>
          rw [List.getElem?_cons_zero] at hk
          cases hk
          have h0 := hih.1 i0 (by omega)
          rw [Nat.add_zero]
          constructor
          · rw [h0.1, hmr]
            by_cases hlt2 : i0 < s.slideMasterRels.length
            · rw [List.getElem?_set_self hlt2]
              simp [List.getElem?_eq_getElem hlt2]
            · rw [List.set_eq_of_length_le (by omega)]
              simp [List.getElem?_eq_none (by omega : s.slideMasterRels.length ≤ i0)]
          · rw [h0.2, hms, List.getElem?_set_self hrlen]
            simp
        | succ k' =>
          simp only [List.getElem?_cons_succ] at hk
          have := hih.2 k' b' hk
          have harith : i0 + (k' + 1) = (i0 + 1) + k' := by omega
          constructor
          · rw [harith, this.1, hmr, List.getElem?_set_ne (by omega)]
          · rw [harith, this.2, hms, List.getElem?_set_ne (by omega)]

/-- After the master-removal loop over a manifest with pairwise-distinct
override part names, no override for an unused master slot survives. -/
theorem removeMastersLoop_override_clear {used : List Bool} {i0 : Nat} {s t : PowerpointDoc}
    (hd : s.contentTypes.Override.Pairwise (fun a b => a.PartName ≠ b.PartName))
    (h : removeMastersLoop used i0 s = some t) :
    ∀ k : Nat, used[k]? = some false →
      ∀ o ∈ t.contentTypes.Override, o.PartName ≠ masterPartName (i0 + k + 1) := by
  induction used generalizing i0 s with
  | nil =>
    intro k hk
    simp at hk
  | cons b rest ih =>
    simp only [removeMastersLoop] at h
    cases b with
    | true =>
      intro k hk
      cases k with
      | zero => simp at hk
      | succ k' =>
        simp only [List.getElem?_cons_succ] at hk
        have := ih hd h k' hk
        intro o ho
        have harith : i0 + 1 + k' + 1 = i0 + (k' + 1) + 1 := by omega
        rw [harith] at this
        exact this o ho
    | false =>
      simp only [Bool.false_eq_true, if_false] at h
      rcases Option.bind_eq_some.mp h with ⟨s', hs', hloop⟩
      rcases removeMasterSlot_spec hs' with
        ⟨hsrc, hmed, hsl, hlay, hct, hpr, hmr, hms, hlt, _⟩
      have hd' : s'.contentTypes.Override.Pairwise (fun a b => a.PartName ≠ b.PartName) := by
        rw [hct]
        exact List.Pairwise.sublist (List.eraseP_sublist _) hd
      intro k hk
      cases k with
      | zero =>
        intro o ho
        have hsub := (removeMastersLoop_frame hloop).2.2.2.2.2.1
        have ho' : o ∈ s'.contentTypes.Override := hsub.subset ho
        rw [hct] at ho'
        have := eraseP_key_clear (fun o => o.PartName) (masterPartName (i0 + 1))
          s.contentTypes.Override hd o ho'
        simpa using this
      | succ k' =>
        simp only [List.getElem?_cons_succ] at hk
        have := ih hd' hloop k' hk
        intro o ho
        have harith : i0 + 1 + k' + 1 = i0 + (k' + 1) + 1 := by omega
        rw [harith] at this
        exact this o ho

/-- After the master-removal loop over a presentation relationship set
with pairwise-distinct targets, no presentation relationship targets an
unused master slot. -/
theorem removeMastersLoop_pres_clear {used : List Bool} {i0 : Nat} {s t : PowerpointDoc}
    (hd : s.presentationRels.Pairwise (fun a b => a.Target ≠ b.Target))
    (h : removeMastersLoop used i0 s = some t) :
    ∀ k : Nat, used[k]? = some false →
      t.presentationRels.find? (fun r => r.Target == masterRelPath (i0 + k + 1)) = none := by
  induction used generalizing i0 s with
  | nil =>
    intro k hk
    simp at hk
  | cons b rest ih =>
    simp only [removeMastersLoop] at h
    cases b with
    | true =>
      intro k hk
      cases k with
      | zero => simp at hk
      | succ k' =>
        simp only [List.getElem?_cons_succ] at hk
        have := ih hd h k' hk
        have harith : i0 + 1 + k' + 1 = i0 + (k' + 1) + 1 := by omega
        rw [harith] at this
        exact this
    | false =>
      simp only [Bool.false_eq_true, if_false] at h
      rcases Option.bind_eq_some.mp h with ⟨s', hs', hloop⟩
      rcases removeMasterSlot_spec hs' with
        ⟨hsrc, hmed, hsl, hlay, hct, hpr, hmr, hms, hlt, _⟩
      have hd' : s'.presentationRels.Pairwise (fun a b => a.Target ≠ b.Target) :=
        List.Pairwise.sublist hpr hd
      intro k hk
      cases k with
      | zero =>
        -- after the step, the unique matching relationship is gone from s';
        -- the remaining loop only shrinks the presentation set further
        have hclear : ∀ x ∈ s'.presentationRels,
            ¬(x.Target = masterRelPath (i0 + 1)) := by
          intro x hx
          simp only [removeMasterSlot] at hs'
          cases hf : s.presentationRels.find? (fun r => r.Target == masterRelPath (i0 + 1)) with
          | none =>
            rw [hf] at hs'
            simp only [Option.some_bind] at hs'
            by_cases hlt2 : i0 < s.slideMasters.length
            · rw [if_pos hlt2] at hs'
              cases hs'
              intro hc
              have := List.find?_eq_none.mp hf x hx
              simp [hc] at this
            · rw [if_neg hlt2] at hs'
              exact absurd hs' (by simp)
          | some r =>
            rw [hf] at hs'
            cases hp : s.presentation with
            | none =>
              rw [hp] at hs'
              exact absurd hs' (by simp)
            | some pd =>
              rw [hp] at hs'
              simp only [Option.some_bind] at hs'
              by_cases hlt2 : i0 < s.slideMasters.length
              · rw [if_pos hlt2] at hs'
                cases hs'
                have hx' : x ∈ s.presentationRels.eraseP
                    (fun r => r.Target == masterRelPath (i0 + 1)) := hx
                have := eraseP_key_clear (fun r => r.Target) (masterRelPath (i0 + 1))
                  s.presentationRels hd x hx'
                exact this
              · rw [if_neg hlt2] at hs'
                exact absurd hs' (by simp)
        have hsub := (removeMastersLoop_frame hloop).2.2.2.2.2.2.1
        rw [List.find?_eq_none]
        intro x hx
        have := hclear x (hsub.subset hx)
        simpa using this
      | succ k' =>
        simp only [List.getElem?_cons_succ] at hk
        have := ih hd' hloop k' hk
        have harith : i0 + 1 + k' + 1 = i0 + (k' + 1) + 1 := by omega
        rw [harith] at this
        exact this

/-- The master-removal loop is the identity when every unused slot is
already fully cleaned. -/
theorem removeMastersLoop_id {used : List Bool} {i0 : Nat} {s : PowerpointDoc}
    (h : ∀ k : Nat, used[k]? = some false →
      (∀ o ∈ s.contentTypes.Override, o.PartName ≠ masterPartName (i0 + k + 1)) ∧
      s.presentationRels.find? (fun r => r.Target == masterRelPath (i0 + k + 1)) = none ∧
      s.slideMasterRels[i0 + k]? = some [] ∧
      s.slideMasters[i0 + k]? = some none) :
    removeMastersLoop used i0 s = some s := by
  induction used generalizing i0 with
  | nil => rfl
  | cons b rest ih =>
    simp only [removeMastersLoop]
    have hrest : ∀ k : Nat, rest[k]? = some false →
        (∀ o ∈ s.contentTypes.Override, o.PartName ≠ masterPartName (i0 + 1 + k + 1)) ∧
        s.presentationRels.find? (fun r => r.Target == masterRelPath (i0 + 1 + k + 1)) = none ∧
        s.slideMasterRels[i0 + 1 + k]? = some [] ∧
        s.slideMasters[i0 + 1 + k]? = some none := by
      intro k hk
      have := h (k + 1) (by simpa using hk)
      have h1 : i0 + (k + 1) + 1 = i0 + 1 + k + 1 := by omega
      have h2 : i0 + (k + 1) = i0 + 1 + k := by omega
      rw [h1, h2] at this
      exact this
    cases b with
    | true => exact ih hrest
    | false =>
      have h0 := h 0 (by simp)
      rw [Nat.add_zero] at h0
      rw [removeMasterSlot_id h0.1 h0.2.1 h0.2.2.1 h0.2.2.2]
      simpa using ih hrest

/-! ### `FindUsedLayouts` / `FindUsedMasters` characterizations -/

/-- Existentials over a flattened list of relationship sets. -/
theorem exists_mem_flatten {P : Relationship → Prop} {ll : List Relationships} :
    (∃ rel ∈ ll.flatten, P rel) ↔ ∃ rels ∈ ll, ∃ rel ∈ rels, P rel := by
  constructor
  · rintro ⟨rel, hmem, hp⟩
    rcases List.mem_flatten.mp hmem with ⟨rels, hrels, hrel⟩
    exact ⟨rels, hrels, rel, hrel, hp⟩
  · rintro ⟨rels, hrels, rel, hrel, hp⟩
    exact ⟨rel, List.mem_flatten.mpr ⟨rels, hrels, hrel⟩, hp⟩

/-- A successful `FindUsedLayouts` has one flag per layout slot. -/
theorem FindUsedLayouts_length {s : PowerpointDoc} {u : List Bool}
    (h : FindUsedLayouts s = some u) : u.length = s.slideLayoutRels.length := by
  unfold FindUsedLayouts at h
  have := markUsed_length h
  simpa using this

/-- A successful `FindUsedMasters` has one flag per master slot. -/
theorem FindUsedMasters_length {s : PowerpointDoc} {u : List Bool}
    (h : FindUsedMasters s = some u) : u.length = s.slideMasterRels.length := by
  unfold FindUsedMasters at h
  have := markUsed_length h
  simpa using this

/-- Slotwise characterization of a successful `FindUsedLayouts`. -/
theorem FindUsedLayouts_getElem? {s : PowerpointDoc} {u : List Bool}
    (h : FindUsedLayouts s = some u) {i : Nat} (hi : i < s.slideLayoutRels.length) :
    (u[i]? = some true ↔ ∃ rels ∈ s.slideRels, ∃ rel ∈ rels,
      rel.Type' = slideLayoutRelType ∧ relNum rel.Target = i + 1) := by
  unfold FindUsedLayouts at h
  have hrep : i < (List.replicate s.slideLayoutRels.length false).length := by simpa using hi
  rw [markUsed_getElem? h hrep]
  have hfalse : (List.replicate s.slideLayoutRels.length false)[i]? = some false := by
    simp [List.getElem?_replicate, hi]
  rw [hfalse]
  simp only [Option.some.injEq, Bool.false_eq_true, false_or]
  exact exists_mem_flatten

/-- Claim C9: `FindUsedLayouts` writes `usedSlideLayouts[n-1]` without a
bounds check, where `n` is the number extracted from each slide's
layout-reference target (`0` when extraction fails, the error being
discarded); the run panics exactly when some slideLayout-type relationship
in some slide relationship set has `n` outside `1 ≤ n ≤` number of layout
slots. -/
theorem findUsedLayouts_totality (s : PowerpointDoc) :
    FindUsedLayouts s = none ↔
      ∃ rels ∈ s.slideRels, ∃ rel ∈ rels, rel.Type' = slideLayoutRelType ∧
        ¬(1 ≤ relNum rel.Target ∧ relNum rel.Target ≤ s.slideLayoutRels.length) := by
  unfold FindUsedLayouts
  rw [markUsed_eq_none]
  simp only [List.length_replicate]
  exact exists_mem_flatten

/-- Claim C1: layout reachability soundness. For every in-range layout slot,
a successful `FindUsedLayouts` marks the slot exactly when some slide's
relationship set holds a slideLayout-type relationship whose extracted
number is the slot's 1-based index; `RemoveUnusedLayouts` tombstones
exactly the unmarked slots, keeping the marked ones untouched; and the
result of `FindUsedLayouts` does not depend on the master relationship
sets or the master document trees. -/
theorem layout_reachability_soundness (s : PowerpointDoc) (u : List Bool)
    (h : FindUsedLayouts s = some u) :
    (∀ i : Nat, i < s.slideLayoutRels.length →
      (u[i]? = some true ↔ ∃ rels ∈ s.slideRels, ∃ rel ∈ rels,
        rel.Type' = slideLayoutRelType ∧ relNum rel.Target = i + 1)) ∧
    (∀ t : PowerpointDoc, RemoveUnusedLayouts s = some t →
      ∀ i : Nat, i < s.slideLayoutRels.length →
        t.slideLayoutRels[i]? =
          if u[i]? = some true then s.slideLayoutRels[i]? else some []) ∧
    (∀ (mrels : List Relationships) (ms : List (Option MasterDoc)),
      FindUsedLayouts { s with slideMasterRels := mrels, slideMasters := ms } =
        FindUsedLayouts s) := by
  refine ⟨fun i hi => FindUsedLayouts_getElem? h hi, ?_, fun mrels ms => rfl⟩
  intro t ht i hi
  unfold RemoveUnusedLayouts at ht
  rw [h] at ht
  simp only [Option.some_bind] at ht
  have hlenu : u.length = s.slideLayoutRels.length := FindUsedLayouts_length h
  have hloop := removeLayoutsLoop_slots ht (by omega)
  have hiu : i < u.length := by omega
  have hk : u[i]? = some u[i] := List.getElem?_eq_getElem hiu
  have hval := hloop.2 i u[i] hk
  rw [Nat.zero_add] at hval
  cases hb : u[i] with
  | true =>
    rw [hb] at hval hk
    rw [hval, hk]
    simp
  | false =>
    rw [hb] at hval hk
    rw [hval, hk]
    simp

/-- Witness for C1 at a concrete two-layout state: slot 2 is unmarked. -/
theorem layout_reachability_soundness_witness :
    ([true, false] : List Bool)[1]? = some true ↔
      ∃ rels ∈ demoState.slideRels, ∃ rel ∈ rels,
        rel.Type' = slideLayoutRelType ∧ relNum rel.Target = 1 + 1 :=
  (layout_reachability_soundness demoState [true, false] (by decide)).1 1 (by decide)

/-- Claim C2 counterexample: with a duplicated override entry for the same
layout part path, the passes leave an override for the tombstoned layout
in the manifest (only the first match is removed, then the scan breaks). -/
theorem manifest_override_counterexample :
    FindUsedLayouts dupOverrideState = some [false] ∧
    ∃ t : PowerpointDoc,
      (RemoveUnusedLayouts dupOverrideState).bind RemoveUnusedMasters = some t ∧
      t.slideLayoutRels = [[]] ∧
      ∃ o ∈ t.contentTypes.Override, o.PartName = layoutPartName 1 := by
  refine ⟨by decide,
    { dupOverrideState with
      slideLayoutRels := [[]]
      contentTypes := ⟨[], [⟨"/ppt/slideLayouts/slideLayout1.xml", "ct"⟩]⟩ },
    by decide, by decide, ⟨"/ppt/slideLayouts/slideLayout1.xml", "ct"⟩, by decide, by decide⟩

/-- Claim C2 amended: provided the manifest's override part names are
pairwise distinct, after `RemoveUnusedLayouts` and `RemoveUnusedMasters`
the override set contains no entry for a layout slot the layout pass
tombstoned, nor for a master slot the master pass tombstoned. -/
theorem manifest_override_consistency (s s1 s2 : PowerpointDoc) (u um : List Bool)
    (hdist : s.contentTypes.Override.Pairwise (fun a b => a.PartName ≠ b.PartName))
    (hu : FindUsedLayouts s = some u)
    (h1 : RemoveUnusedLayouts s = some s1)
    (hum : FindUsedMasters s1 = some um)
    (h2 : RemoveUnusedMasters s1 = some s2) :
    (∀ i : Nat, u[i]? = some false →
      ∀ o ∈ s2.contentTypes.Override, o.PartName ≠ layoutPartName (i + 1)) ∧
    (∀ k : Nat, um[k]? = some false →
      ∀ o ∈ s2.contentTypes.Override, o.PartName ≠ masterPartName (k + 1)) := by
  unfold RemoveUnusedLayouts at h1
  rw [hu] at h1
  simp only [Option.some_bind] at h1
  unfold RemoveUnusedMasters at h2
  rw [hum] at h2
  simp only [Option.some_bind] at h2
  have hdist1 : s1.contentTypes.Override.Pairwise (fun a b => a.PartName ≠ b.PartName) :=
    List.Pairwise.sublist (removeLayoutsLoop_frame h1).2.2.2.2.2.2.1 hdist
  constructor
  · intro i hi o ho
    have hclear := removeLayoutsLoop_override_clear hdist h1 i hi
    have hsub := (removeMastersLoop_frame h2).2.2.2.2.2.1
    have := hclear o (hsub.subset ho)
    simpa using this
  · intro k hk o ho
    have hclear := removeMastersLoop_override_clear hdist1 h2 k hk
    have := hclear o ho
    simpa using this

/-- Witness for C2 at `demoState`: the surviving master override is not
the removed layout 2's part path. -/
theorem manifest_override_consistency_witness :
    ("/ppt/slideMasters/slideMaster1.xml" : String) ≠ layoutPartName (1 + 1) :=
  (manifest_override_consistency demoState demoResult demoResult [true, false] [true]
    (by decide) (by decide) (by decide) (by decide) (by decide)).1 1 (by decide)
    ⟨"/ppt/slideMasters/slideMaster1.xml", "ct"⟩ (by decide)

/-! ### Idempotence of the pruning sequence -/

/-- Deleting unused media twice deletes nothing new. -/
theorem RemoveUnusedMedias_idem (s : PowerpointDoc) :
    RemoveUnusedMedias (RemoveUnusedMedias s) = RemoveUnusedMedias s := by
  unfold RemoveUnusedMedias
  congr 1
  exact filter_idem _ _

/-- Claim C8 counterexample: on a state with a duplicated manifest override
for the unused layout, a second run of the pruning sequence removes the
surviving duplicate, so the sequence is not idempotent on every state. -/
theorem pruning_idempotence_counterexample :
    ∃ t : PowerpointDoc, fullPrune dupOverrideState = some t ∧ fullPrune t ≠ some t := by
  refine ⟨{ dupOverrideState with
      slideLayoutRels := [[]]
      contentTypes := ⟨[], [⟨"/ppt/slideLayouts/slideLayout1.xml", "ct"⟩]⟩ }, by decide, by decide⟩

/-- Claim C8 amended: the pruning sequence is idempotent on every state on
which it succeeds, provided the manifest override part names are pairwise
distinct, each master relationship set has pairwise-distinct targets, and
the presentation relationship set has pairwise-distinct targets. -/
theorem pruning_idempotence (s t : PowerpointDoc)
    (hov : s.contentTypes.Override.Pairwise (fun a b => a.PartName ≠ b.PartName))
    (hmrd : ∀ rels ∈ s.slideMasterRels, rels.Pairwise (fun a b => a.Target ≠ b.Target))
    (hprd : s.presentationRels.Pairwise (fun a b => a.Target ≠ b.Target))
    (h : fullPrune s = some t) :
    fullPrune t = some t := by
  unfold fullPrune at h
  rcases Option.bind_eq_some.mp h with ⟨s1, h1, h2'⟩
  rcases Option.map_eq_some'.mp h2' with ⟨s2, h2, rfl⟩
  unfold RemoveUnusedLayouts at h1
  rcases Option.bind_eq_some.mp h1 with ⟨u, hu, hl1⟩
  unfold RemoveUnusedMasters at h2
  rcases Option.bind_eq_some.mp h2 with ⟨um, hum, hm1⟩
  have F1 := removeLayoutsLoop_frame hl1
  have F2 := removeMastersLoop_frame hm1
  have hulen : u.length = s.slideLayoutRels.length := FindUsedLayouts_length hu
  have humlen : um.length = s1.slideMasterRels.length := FindUsedMasters_length hum
  -- the final state, before the (idempotent) media deletion
  set t := RemoveUnusedMedias s2 with ht
  have htRels : t.slideRels = s.slideRels := by
    show s2.slideRels = s.slideRels
    rw [F2.2.2.1, F1.2.2.1]
  have htLay : t.slideLayoutRels = s1.slideLayoutRels := by
    show s2.slideLayoutRels = s1.slideLayoutRels
    exact F2.2.2.2.1
  have htLayLen : t.slideLayoutRels.length = s.slideLayoutRels.length := by
    rw [htLay, F1.2.2.2.2.2.2.2.1]
  have htOv : t.contentTypes.Override = s2.contentTypes.Override := rfl
  have htPr : t.presentationRels = s2.presentationRels := rfl
  have htMr : t.slideMasterRels = s2.slideMasterRels := rfl
  have htMs : t.slideMasters = s2.slideMasters := rfl
  -- step A: the layout pass is the identity on t
  have hAfind : FindUsedLayouts t = some u := by
    unfold FindUsedLayouts
    rw [htRels, htLayLen]
    exact hu
  have hAloop : removeLayoutsLoop u 0 t = some t := by
    apply removeLayoutsLoop_id
    intro k hk
    refine ⟨?_, ?_, ?_⟩
    · intro o ho
      have hclear := removeLayoutsLoop_override_clear hov hl1 k hk
      rw [htOv] at ho
      have := hclear o (F2.2.2.2.2.2.1.subset ho)
      simpa using this
    · intro rels hrels
      have hclear := removeLayoutsLoop_master_clear hmrd hl1 k hk
      rw [htMr] at hrels
      rcases List.getElem?_of_mem hrels with ⟨j, hj⟩
      rcases F2.2.2.2.2.2.2.2.2.2 j rels hj with rfl | hj'
      · simp
      · have := hclear rels (List.getElem?_mem hj')
        simpa using this
    · have hslots := removeLayoutsLoop_slots hl1 (by omega)
      have hval := hslots.2 k false hk
      simp only [Nat.zero_add, Bool.false_eq_true, if_false] at hval
      simp only [Nat.zero_add]
      rw [htLay]
      exact hval
  have hA : RemoveUnusedLayouts t = some t := by
    unfold RemoveUnusedLayouts
    rw [hAfind]
    simpa using hAloop
  -- step B: the master pass is the identity on t
  have hBfind : FindUsedMasters t = some um := by
    unfold FindUsedMasters
    rw [htLay]
    have hmlen : t.slideMasterRels.length = s1.slideMasterRels.length := by
      rw [htMr, F2.2.2.2.2.2.2.2.1]
    rw [hmlen]
    exact hum
  have hBloop : removeMastersLoop um 0 t = some t := by
    apply removeMastersLoop_id
    intro k hk
    have hkum : k < um.length := by
      rcases List.getElem?_eq_some_iff.mp hk with ⟨hl, _⟩
      exact hl
    have hov1 : s1.contentTypes.Override.Pairwise (fun a b => a.PartName ≠ b.PartName) :=
      List.Pairwise.sublist F1.2.2.2.2.2.2.1 hov
    have hpr1 : s1.presentationRels.Pairwise (fun a b => a.Target ≠ b.Target) := by
      rw [F1.2.2.2.1]
      exact hprd
    refine ⟨?_, ?_, ?_, ?_⟩
    · intro o ho
      have hclear := removeMastersLoop_override_clear hov1 hm1 k hk
      rw [htOv] at ho
      have := hclear o ho
      simpa using this
    · have hclear := removeMastersLoop_pres_clear hpr1 hm1 k hk
      rw [htPr]
      simpa using hclear
    · have hslots := removeMastersLoop_slots hm1
      have hval := (hslots.2 k false hk).1
      simp only [Nat.zero_add, Bool.false_eq_true, if_false] at hval
      have hs1k : k < s1.slideMasterRels.length := by omega
      simp only [Nat.zero_add]
      rw [htMr, hval, List.getElem?_eq_getElem hs1k]
      simp
    · have hslots := removeMastersLoop_slots hm1
      have hval := (hslots.2 k false hk).2
      simp only [Nat.zero_add, Bool.false_eq_true, if_false] at hval
      simp only [Nat.zero_add]
      rw [htMs]
      exact hval
  have hB : RemoveUnusedMasters t = some t := by
    unfold RemoveUnusedMasters
    rw [hBfind]
    simpa using hBloop
  -- step C: the media pass is the identity on t
  have hC : RemoveUnusedMedias t = t := RemoveUnusedMedias_idem s2
  unfold fullPrune
  rw [hA]
  simp only [Option.some_bind]
  rw [hB]
  simp only [Option.map_some']
  rw [hC]

/-- Witness for C8: a second pruning pass over the already-pruned
`demoResult` changes nothing. -/
theorem pruning_idempotence_witness : fullPrune demoResult = some demoResult :=
  pruning_idempotence demoState demoResult (by decide) (by decide) (by decide) (by decide)

/-- Claim C5 counterexample: master 1 references the unused layout 1 under
`rId7`, the master tree holds no element with that id, yet
`RemoveUnusedLayouts` completes without a fatal stop — the element loop
simply finds nothing to remove while the relationship is still deleted. -/
theorem missing_reference_counterexample :
    FindUsedLayouts missingElemState = some [false] ∧
    missingElemState.slideMasterRels = [[⟨"rId7", slideLayoutRelType, layoutRelPath 1, ""⟩]] ∧
    missingElemState.slideMasters = [some ["rId5"]] ∧
    ("rId7" : String) ∉ (["rId5"] : List String) ∧
    RemoveUnusedLayouts missingElemState =
      some { missingElemState with slideLayoutRels := [[]], slideMasterRels := [[]] } := by
  decide

/-- Claim C5 amended: the master scan of `RemoveUnusedLayouts` aborts the
run exactly when the master owning the matching relationship has a nil or
absent document slot; a master tree that merely lacks the expected
`p:sldLayoutId` element is left unchanged and the run silently continues. -/
theorem missing_reference_silent (relpath : String) (mrels : List Relationships)
    (masters : List (Option MasterDoc)) (m : MasterDoc) (id : String) (hid : id ∉ m) :
    (removeLayoutFromMasters relpath mrels masters = none ↔
      ∃ j : Nat, ∃ rels : Relationships, mrels[j]? = some rels ∧
        (rels.find? (fun r => r.Target == relpath)).isSome ∧
        (masters[j]? = none ∨ masters[j]? = some none)) ∧
    removeLayoutFromMaster m id = m := by
  constructor
  · induction mrels generalizing masters with
    | nil =>
      simp [removeLayoutFromMasters]
    | cons rels rest ih =>
      cases masters with
      | nil =>
        simp only [removeLayoutFromMasters]
        cases hf : rels.find? (fun r => r.Target == relpath) with
        | none =>
          rw [Option.map_eq_none', ih]
          constructor
          · rintro ⟨j, rels', hj, hs, hq⟩
            refine ⟨j + 1, rels', by simpa using hj, hs, Or.inl (by simp)⟩
          · rintro ⟨j, rels', hj, hs, hq⟩
            cases j with
            | zero =>
              rw [List.getElem?_cons_zero] at hj
              cases hj
              rw [hf] at hs
              simp at hs
            | succ j' =>
              rw [List.getElem?_cons_succ] at hj
              exact ⟨j', rels', hj, hs, Or.inl (by simp)⟩
        | some r =>
          simp only [true_iff]
          exact ⟨0, rels, by simp, by simp [hf], Or.inl (by simp)⟩
      | cons m0 ms =>
        simp only [removeLayoutFromMasters]
        cases hf : rels.find? (fun r => r.Target == relpath) with
        | none =>
          rw [Option.map_eq_none', ih]
          constructor
          · rintro ⟨j, rels', hj, hs, hq⟩
            exact ⟨j + 1, rels', by simpa using hj, hs, by simpa using hq⟩
          · rintro ⟨j, rels', hj, hs, hq⟩
            cases j with
            | zero =>
              rw [List.getElem?_cons_zero] at hj
              cases hj
              rw [hf] at hs
              simp at hs
            | succ j' =>
              rw [List.getElem?_cons_succ] at hj
              rw [List.getElem?_cons_succ] at hq
              exact ⟨j', rels', hj, hs, hq⟩
        | some r =>
          cases m0 with
          | none =>
            simp only [true_iff]
            exact ⟨0, rels, by simp, by simp [hf], Or.inr (by simp)⟩
          | some md =>
            rw [Option.map_eq_none', ih]
            constructor
            · rintro ⟨j, rels', hj, hs, hq⟩
              exact ⟨j + 1, rels', by simpa using hj, hs, by simpa using hq⟩
            · rintro ⟨j, rels', hj, hs, hq⟩
              cases j with
              | zero =>
                rw [List.getElem?_cons_zero] at hq
                rcases hq with hq | hq
                · exact absurd hq (by simp)
                · exact absurd hq (by simp)
              | succ j' =>
                rw [List.getElem?_cons_succ] at hj
                rw [List.getElem?_cons_succ] at hq
                exact ⟨j', rels', hj, hs, hq⟩
  · refine List.filter_eq_self.mpr ?_
    intro a ha
    simp only [Bool.not_eq_eq_eq_not, Bool.not_true, beq_eq_false_iff_ne, ne_eq]
    intro he
    exact hid (he ▸ ha)

/-- Witness for C5: removing a missing id from a concrete master tree is a
silent no-op. -/
theorem missing_reference_silent_witness :
    removeLayoutFromMaster ["rId5"] "rId7" = ["rId5"] :=
  (missing_reference_silent "x" [] [] ["rId5"] "rId7" (by decide)).2

/-! ### Transcoder and reader claims -/

/-- Claim C3 (code-bug evaluation): on the upper-case `.TIFF` media the
lower-cased eligibility check fires, but the case-sensitive name
substitution leaves the key unchanged, so the freshly inserted entry is
immediately deleted: the media disappears from the index entirely and no
relationship is rewritten. -/
theorem transcode_uppercase_loses_media :
    toLowerAscii (extName "ppt/media/IMG.TIFF") = ".tiff" ∧
    replaceFirst "ppt/media/IMG.TIFF" ".tiff" ".png" = "ppt/media/IMG.TIFF" ∧
    (ConvertPictures (fun _ => [0]) upperTiffState).medias = [] ∧
    (ConvertPictures (fun _ => [0]) upperTiffState).slideRels = upperTiffState.slideRels := by
  decide

/-- Claim C4 (code-bug evaluation): a `_rels` entry whose name does not
match the numbering pattern yields the error the claim expects, but the
caller discards it and indexes slot `0 - 1`: a runtime panic, not a
logged skip. -/
theorem reader_naming_error_panics :
    getObjectNumberFromFilename "ppt/slides/_rels/slide.xml.rels" =
      Except.error "invalid file name ppt/slides/_rels/slide.xml.rels" ∧
    parseAllRelationships [] "slide" "ppt/slides/_rels/slide.xml.rels"
      [⟨"rId1", "t", "x", ""⟩] = none := by
  decide

/-- Soundness of `indexOfSub`: a found index decomposes the string. -/
theorem indexOfSub_decomp {pat s : List Char} {k : Nat}
    (h : indexOfSub pat s = some k) :
    s = s.take k ++ pat ++ s.drop (k + pat.length) := by
  induction s generalizing k with
  | nil =>
    simp only [indexOfSub] at h
    by_cases hp : pat.isPrefixOf ([] : List Char) = true
    · rw [if_pos hp] at h
      cases h
      have : pat <+: ([] : List Char) := List.isPrefixOf_iff_prefix.mp hp
      rcases this with ⟨t, ht⟩
      simp at ht
      simp [ht.1]
    · rw [if_neg hp] at h
      cases h
  | cons c rest ih =>
    simp only [indexOfSub] at h
    by_cases hp : pat.isPrefixOf (c :: rest) = true
    · rw [if_pos hp] at h
      cases h
      have : pat <+: (c :: rest) := List.isPrefixOf_iff_prefix.mp hp
      rcases this with ⟨t, ht⟩
      conv_lhs => rw [← ht]
      rw [List.take_zero, Nat.zero_add, List.nil_append, ← ht,
        List.drop_left' rfl]
    · rw [if_neg hp] at h
      rcases Option.map_eq_some'.mp h with ⟨k', hk', rfl⟩
      have := ih hk'
      calc c :: rest = c :: (rest.take k' ++ pat ++ rest.drop (k' + pat.length)) := by rw [← this]
        _ = (c :: rest).take (k' + 1) ++ pat ++ (c :: rest).drop (k' + 1 + pat.length) := by
            simp [List.take_succ_cons, Nat.add_right_comm]

/-- Minimality of `indexOfSub`: nothing matches before the found index. -/
theorem indexOfSub_min {pat s : List Char} {k : Nat}
    (h : indexOfSub pat s = some k) :
    ∀ j : Nat, j < k → ¬(pat.isPrefixOf (s.drop j) = true) := by
  induction s generalizing k with
  | nil =>
    simp only [indexOfSub] at h
    by_cases hp : pat.isPrefixOf ([] : List Char) = true
    · rw [if_pos hp] at h
      cases h
      intro j hj
      omega
    · rw [if_neg hp] at h
      cases h
  | cons c rest ih =>
    simp only [indexOfSub] at h
    by_cases hp : pat.isPrefixOf (c :: rest) = true
    · rw [if_pos hp] at h
      cases h
      intro j hj
      omega
    · rw [if_neg hp] at h
      rcases Option.map_eq_some'.mp h with ⟨k', hk', rfl⟩
      intro j hj
      cases j with
      | zero =>
        simpa using hp
      | succ j' =>
        rw [List.drop_succ_cons]
        exact ih hk' j' (by omega)

/-- Completeness of `indexOfSub` for suffixes: a nonempty suffix occurs. -/
theorem indexOfSub_of_suffix {pat s : List Char}
    (hne : pat ≠ []) (h : pat.isSuffixOf s = true) :
    (indexOfSub pat s).isSome = true := by
  induction s with
  | nil =>
    have : pat <:+ ([] : List Char) := List.isSuffixOf_iff_suffix.mp h
    rcases this with ⟨t, ht⟩
    simp at ht
    exact absurd ht.2 hne
  | cons c rest ih =>
    simp only [indexOfSub]
    by_cases hp : pat.isPrefixOf (c :: rest) = true
    · rw [if_pos hp]
      rfl
    · rw [if_neg hp]
      have : pat <:+ (c :: rest) := List.isSuffixOf_iff_suffix.mp h
      rcases this with ⟨t, ht⟩
      cases t with
      | nil =>
        simp at ht
        have hpre : pat.isPrefixOf (c :: rest) = true :=
          List.isPrefixOf_iff_prefix.mpr ⟨[], by simp [ht]⟩
        exact absurd hpre hp
      | cons c' t' =>
        have hsuf : pat.isSuffixOf rest = true := by
          rw [List.isSuffixOf_iff_suffix]
          exact ⟨t', by injection ht with h1 h2⟩
        have := ih hsuf
        rw [Option.isSome_map']
        exact this

/-- Claim C6 counterexample: converting `ppt/media/a.tiff` rewrites a
relationship whose target base name is `xa.tiff` — not equal to the old
media base name `a.tiff`, merely ending with it. -/
theorem transcode_rewrite_counterexample :
    baseName "../media/xa.tiff" ≠ baseName "ppt/media/a.tiff" ∧
    (ConvertPictures (fun _ => [0]) suffixClashState).slideRels =
      [[⟨"rId2", imageRelType, "../media/xa.png", ""⟩]] := by
  decide

/-- Claim C6 amended: for a single eligible media entry, `ConvertPictures`
rewrites every slide/layout/master relationship target if and only if the
old media base name is a suffix of the target (not necessarily its whole
base file name); the rewrite replaces exactly the first occurrence of the
old base name, preserving the part of the target before it and after it;
all other relationships are unchanged. -/
theorem transcode_rewrite_frame (png : String → List Nat) (s : PowerpointDoc) (f : ZipEntry)
    (harch : s.sourceFiles = [f])
    (hmedia : strStartsWith f.name "ppt/media/" = true)
    (hext : (toLowerAscii (extName f.name) == ".tiff") = true) :
    ((ConvertPictures png s).slideRels =
      s.slideRels.map (fun r => ReplaceTarget r (baseName f.name)
        (replaceFirst (baseName f.name) ".tiff" ".png"))) ∧
    ((ConvertPictures png s).slideLayoutRels =
      s.slideLayoutRels.map (fun r => ReplaceTarget r (baseName f.name)
        (replaceFirst (baseName f.name) ".tiff" ".png"))) ∧
    ((ConvertPictures png s).slideMasterRels =
      s.slideMasterRels.map (fun r => ReplaceTarget r (baseName f.name)
        (replaceFirst (baseName f.name) ".tiff" ".png"))) ∧
    (∀ (rels : Relationships) (old new : String) (i : Nat) (rel : Relationship),
      rels[i]? = some rel →
        (ReplaceTarget rels old new)[i]? = some
          (if hasSuffix rel.Target old then
            { rel with Target := replaceFirst rel.Target old new }
          else rel)) ∧
    (∀ (str old new : String), old ≠ "" → hasSuffix str old = true →
      ∃ k : Nat, indexOfSub old.data str.data = some k ∧
        str.data = str.data.take k ++ old.data ++ str.data.drop (k + old.data.length) ∧
        (replaceFirst str old new).data =
          str.data.take k ++ new.data ++ str.data.drop (k + old.data.length) ∧
        ∀ j : Nat, j < k → ¬(old.data.isPrefixOf (str.data.drop j) = true)) := by
  have hcond : (strStartsWith f.name "ppt/media/" &&
      toLowerAscii (extName f.name) == ".tiff") = true := by
    rw [hmedia, hext]
    rfl
  have hconv : ConvertPictures png s = convertOne png s f := by
    unfold ConvertPictures
    rw [harch]
    rfl
  have hone : convertOne png s f = { s with
      medias := eraseKey (insertKey s.medias (replaceFirst f.name ".tiff" ".png")
        ⟨(png f.name).length, some (png f.name)⟩) f.name
      slideRels := s.slideRels.map (fun r => ReplaceTarget r (baseName f.name)
        (replaceFirst (baseName f.name) ".tiff" ".png"))
      slideLayoutRels := s.slideLayoutRels.map (fun r => ReplaceTarget r (baseName f.name)
        (replaceFirst (baseName f.name) ".tiff" ".png"))
      slideMasterRels := s.slideMasterRels.map (fun r => ReplaceTarget r (baseName f.name)
        (replaceFirst (baseName f.name) ".tiff" ".png")) } := by
    unfold convertOne
    rw [if_pos hcond]
  refine ⟨by rw [hconv, hone], by rw [hconv, hone], by rw [hconv, hone], ?_, ?_⟩
  · intro rels old new i rel hi
    unfold ReplaceTarget
    rw [List.getElem?_map, hi]
    rfl
  · intro str old new hne hsuf
    have hisome : (indexOfSub old.data str.data).isSome = true := by
      apply indexOfSub_of_suffix
      · intro hc
        apply hne
        cases old with
        | mk d => cases hc; rfl
      · exact hsuf
    rcases Option.isSome_iff_exists.mp hisome with ⟨k, hk⟩
    refine ⟨k, hk, indexOfSub_decomp hk, ?_, indexOfSub_min hk⟩
    unfold replaceFirst
    rw [hk]

/-- Witness for C6 at the suffix-clash state. -/
theorem transcode_rewrite_frame_witness :
    (ConvertPictures (fun _ => [0]) suffixClashState).slideRels =
      suffixClashState.slideRels.map (fun r => ReplaceTarget r (baseName "ppt/media/a.tiff")
        (replaceFirst (baseName "ppt/media/a.tiff") ".tiff" ".png")) :=
  (transcode_rewrite_frame (fun _ => [0]) suffixClashState ⟨"ppt/media/a.tiff", 4⟩
    rfl (by decide) (by decide)).1

/-! ### Writer claims -/

/-- Claim C7 counterexample: the two orders in which Go's map range may
visit the two transcoded media keys are permutations of one another, yet
`SaveFile` emits different entry sequences — the writer is not a
deterministic function of the graph and archive alone. -/
theorem writer_determinism_counterexample :
    List.Perm ["ppt/media/a.png", "ppt/media/b.png"]
      ["ppt/media/b.png", "ppt/media/a.png"] ∧
    saveEntryNames twoMediaState ["ppt/media/a.png", "ppt/media/b.png"] ≠
      saveEntryNames twoMediaState ["ppt/media/b.png", "ppt/media/a.png"] := by
  constructor
  · exact List.Perm.swap _ _ _
  · decide

/-- Claim C7 amended: the output entry sequence varies with the media map's
iteration order, but only there: outputs for any two iteration orders
succeed together and are permutations of each other (the new-media
segment is permuted, everything else is equal), and the numbered
relationship-set and master slots are emitted in ascending slot order. -/
theorem writer_determinism (s : PowerpointDoc) (o1 o2 : List String)
    (hperm : List.Perm o1 o2) :
    ((saveEntryNames s o1).isSome = (saveEntryNames s o2).isSome) ∧
    (∀ l1 l2 : List String, saveEntryNames s o1 = some l1 → saveEntryNames s o2 = some l2 →
      List.Perm l1 l2) ∧
    (∀ (rels : List Relationships) (ty : String), ∃ idx : List Nat,
      List.Sorted (· < ·) idx ∧
      saveAllRelNames rels ty = idx.map
        (fun i => "ppt/" ++ ty ++ "s/_rels/" ++ ty ++ toString (i + 1) ++ ".xml.rels")) ∧
    (∀ ms : List (Option MasterDoc), ∃ idx : List Nat,
      List.Sorted (· < ·) idx ∧
      saveMasterNames ms = idx.map
        (fun i => "ppt/slideMasters/slideMaster" ++ toString (i + 1) ++ ".xml")) := by
  refine ⟨?_, ?_, ?_, ?_⟩
  · unfold saveEntryNames
    cases copyLoop s s.sourceFiles with
    | none => rfl
    | some c =>
      cases s.presentation with
      | none => rfl
      | some pd => rfl
  · intro l1 l2 h1 h2
    unfold saveEntryNames at h1 h2
    rcases Option.bind_eq_some.mp h1 with ⟨c1, hc1, hr1⟩
    rcases Option.bind_eq_some.mp h2 with ⟨c2, hc2, hr2⟩
    have hc : c1 = c2 := by
      have h12 := hc1.symm.trans hc2
      injection h12
    subst hc
    cases hp : s.presentation with
    | none =>
      rw [hp] at hr1
      exact absurd hr1 (by simp)
    | some pd =>
      rw [hp] at hr1 hr2
      cases hr1
      cases hr2
      have hmedia : List.Perm (mediaPhase s.medias o1) (mediaPhase s.medias o2) :=
        List.Perm.filterMap _ hperm
      simp only [List.append_assoc]
      exact List.Perm.append (List.Perm.refl c1)
        (List.Perm.append hmedia (List.Perm.refl _))
  · intro rels ty
    exact ⟨(List.range rels.length).filter (fun i => !(rels.getD i []).isEmpty),
      List.Pairwise.filter _ (List.pairwise_lt_range rels.length), rfl⟩
  · intro ms
    exact ⟨(List.range ms.length).filter (fun i => (ms.getD i none).isSome),
      List.Pairwise.filter _ (List.pairwise_lt_range ms.length), rfl⟩

/-- Witness for C7: two concrete orders give permuted outputs. -/
theorem writer_determinism_witness :
    List.Perm
      ["ppt/media/a.png", "ppt/media/b.png", "ppt/_rels/presentation.xml.rels",
        "[Content_Types].xml", "ppt/presentation.xml"]
      ["ppt/media/b.png", "ppt/media/a.png", "ppt/_rels/presentation.xml.rels",
        "[Content_Types].xml", "ppt/presentation.xml"] :=
  (writer_determinism twoMediaState ["ppt/media/a.png", "ppt/media/b.png"]
    ["ppt/media/b.png", "ppt/media/a.png"] (List.Perm.swap _ _ _)).2.1
    _ _ (by decide) (by decide)

/-- Two prefixes of the same string are comparable. -/
theorem startsWith_compare {x p q : String}
    (hp : strStartsWith x p = true) (hq : strStartsWith x q = true) :
    p.data.isPrefixOf q.data = true ∨ q.data.isPrefixOf p.data = true := by
  unfold strStartsWith at hp hq
  have hp' := List.isPrefixOf_iff_prefix.mp hp
  have hq' := List.isPrefixOf_iff_prefix.mp hq
  rcases List.prefix_or_prefix_of_prefix hp' hq' with h | h
  · have hh := List.isPrefixOf_iff_prefix.mpr h
    exact Or.inl hh
  · have hh := List.isPrefixOf_iff_prefix.mpr h
    exact Or.inr hh

/-- The only abort of the writer's copy loop is the unchecked
`slideLayoutRels[n-1]` read for a layout-area body entry. -/
theorem copyEntry_eq_none {s : PowerpointDoc} {f : ZipEntry} :
    copyEntry s f = none ↔
      strStartsWith f.name "ppt/slideLayouts/" = true ∧
      strStartsWith f.name "ppt/slideLayouts/_rels/" = false ∧
      ¬(1 ≤ relNum f.name ∧ relNum f.name ≤ s.slideLayoutRels.length) := by
  unfold copyEntry
  by_cases hb1 : (f.name == "[Content_Types].xml"
      || strStartsWith f.name "ppt/slides/_rels/"
      || strStartsWith f.name "ppt/slideLayouts/_rels/"
      || strStartsWith f.name "ppt/_rels/"
      || strStartsWith f.name "ppt/slideMasters/"
      || f.name == "ppt/presentation.xml") = true
  · rw [if_pos hb1]
    constructor
    · intro hcontr
      cases hcontr
    · rintro ⟨hL, hNR, hn⟩
      exfalso
      simp only [Bool.or_eq_true, beq_iff_eq] at hb1
      rcases hb1 with ((((h | h) | h) | h) | h) | h
      · rw [h] at hL
        exact absurd hL (by decide)
      · rcases startsWith_compare h hL with hc | hc
        · exact absurd hc (by decide)
        · exact absurd hc (by decide)
      · rw [hNR] at h
        cases h
      · rcases startsWith_compare h hL with hc | hc
        · exact absurd hc (by decide)
        · exact absurd hc (by decide)
      · rcases startsWith_compare h hL with hc | hc
        · exact absurd hc (by decide)
        · exact absurd hc (by decide)
      · rw [h] at hL
        exact absurd hL (by decide)
  · rw [if_neg hb1]
    by_cases hb2 : (strStartsWith f.name "ppt/media/"
        && !(s.medias.any (fun kv => kv.1 == f.name))) = true
    · rw [if_pos hb2]
      constructor
      · intro hcontr
        cases hcontr
      · rintro ⟨hL, hNR, hn⟩
        exfalso
        rw [Bool.and_eq_true] at hb2
        rcases startsWith_compare hb2.1 hL with hc | hc
        · exact absurd hc (by decide)
        · exact absurd hc (by decide)
    · rw [if_neg hb2]
      by_cases hb3 : strStartsWith f.name "ppt/slideLayouts/" = true
      · rw [if_pos hb3]
        have hNR : strStartsWith f.name "ppt/slideLayouts/_rels/" = false := by
          by_cases h : strStartsWith f.name "ppt/slideLayouts/_rels/" = true
          · exact absurd (by simp [h]) hb1
          · simpa using h
        by_cases hin : 1 ≤ relNum f.name ∧ relNum f.name - 1 < s.slideLayoutRels.length
        · rw [if_pos hin]
          constructor
          · intro hcontr
            by_cases hc : (s.slideLayoutRels.getD (relNum f.name - 1) []).length < 1
            · rw [if_pos hc] at hcontr
              cases hcontr
            · rw [if_neg hc] at hcontr
              cases hcontr
          · rintro ⟨_, _, hn⟩
            exact absurd hin (by omega)
        · rw [if_neg hin]
          constructor
          · intro _
            exact ⟨hb3, hNR, by omega⟩
          · intro _
            rfl
      · rw [if_neg hb3]
        constructor
        · intro hcontr
          cases hcontr
        · rintro ⟨hL, _, _⟩
          exact absurd hL hb3

/-- The copy loop aborts exactly when some entry's copy decision aborts. -/
theorem copyLoop_eq_none {s : PowerpointDoc} {files : List ZipEntry} :
    copyLoop s files = none ↔ ∃ f ∈ files, copyEntry s f = none := by
  induction files with
  | nil => simp [copyLoop]
  | cons f rest ih =>
    simp only [copyLoop]
    cases he : copyEntry s f with
    | none =>
      simp
      exact Or.inl he
    | some l =>
      simp only [Option.some_bind, Option.map_eq_none', ih]
      constructor
      · rintro ⟨g, hg, hnone⟩
        exact ⟨g, by simp [hg], hnone⟩
      · rintro ⟨g, hg, hnone⟩
        rcases List.mem_cons.mp hg with rfl | hg'
        · rw [he] at hnone
          cases hnone
        · exact ⟨g, hg', hnone⟩

/-- Claim C10: the writer's pass-through loop reads
`slideLayoutRels[relNum - 1]` without a bounds check for every source
entry under `ppt/slideLayouts/` outside the `_rels` sub-path; the copy
phase aborts exactly when some such entry's extracted number `n` (0 when
extraction fails) violates `1 ≤ n ≤` number of layout slots, and a copy
phase abort aborts the whole `SaveFile` run. -/
theorem writer_layout_skip_totality (s : PowerpointDoc) :
    (copyLoop s s.sourceFiles = none ↔
      ∃ f ∈ s.sourceFiles,
        strStartsWith f.name "ppt/slideLayouts/" = true ∧
        strStartsWith f.name "ppt/slideLayouts/_rels/" = false ∧
        ¬(1 ≤ relNum f.name ∧ relNum f.name ≤ s.slideLayoutRels.length)) ∧
    (copyLoop s s.sourceFiles = none → ∀ mo : List String, saveEntryNames s mo = none) := by
  constructor
  · rw [copyLoop_eq_none]
    exact exists_congr (fun f => and_congr_right (fun _ => copyEntry_eq_none))
  · intro hnone mo
    unfold saveEntryNames
    rw [hnone]
    rfl

/-- Witness for C10 at a stray layout body with no parsed slot 2. -/
theorem writer_layout_skip_totality_witness :
    copyLoop strayLayoutState strayLayoutState.sourceFiles = none ∧
    saveEntryNames strayLayoutState [] = none :=
  ⟨(writer_layout_skip_totality strayLayoutState).1.mpr
      ⟨⟨"ppt/slideLayouts/slideLayout2.xml", 4⟩, by decide, by decide, by decide, by decide⟩,
    (writer_layout_skip_totality strayLayoutState).2 (by decide) []⟩
